import Mathlib

/-!
# Document Store Gateway: a verification development of `backend/main.go`

The program is a set of HTTP handlers over a documents directory.  The
embedding has three layers.

* Go strings are lists of characters (`Str`).  The functions of `strings`
  and `path/filepath` (Unix build) that the handlers call are written out
  as executable definitions following the library sources.
* A handler is a function from a response writer and a request to a
  program (`Prog`): a tree whose nodes are the calls the handler makes into
  package `os` (and `time.Now`), each with a continuation on the call's
  result, and whose leaves are the finished response.  A handler that
  answers without touching the filesystem is literally a leaf.
* `encoding/json` and `encoding/base64` are a parameter (`Stdlib`): the
  handlers only branch on whether decoding succeeded and pass the decoded
  values on.  The operating system is a parameter too (`OS`), used by
  `Prog.run` to execute a program against a filesystem state.

`routes` is the table of patterns and handlers `main` registers; `serve`
calls the handler of a route on a request.  `log.Printf` calls write to the
process log only and are left out.
-/

namespace Backend

/-- A Go string. -/
abbrev Str := List Char

/-! ## Package `strings` -/

namespace strings

/-- Go `strings.HasPrefix`. -/
def HasPrefix (s pre : Str) : Bool := pre.isPrefixOf s

/-- Go `strings.HasSuffix`. -/
def HasSuffix (s suffix : Str) : Bool := suffix.isSuffixOf s

/-- Go `strings.TrimPrefix`: `s` without the leading `pre`, or `s` itself. -/
def TrimPrefix (s pre : Str) : Str :=
  if HasPrefix s pre then s.drop pre.length else s

/-- Go `strings.TrimSuffix`: `s` without the trailing `suffix`, or `s` itself. -/
def TrimSuffix (s suffix : Str) : Str :=
  if HasSuffix s suffix then s.take (s.length - suffix.length) else s

/-- Go `strings.Contains`: `substr` occurs at some position of `s`. -/
def Contains : Str → Str → Bool
  | [], substr => HasPrefix [] substr
  | c :: s, substr => HasPrefix (c :: s) substr || Contains s substr

end strings

/-! ## Package `path/filepath` (Unix) -/

namespace filepath

/-- Go `filepath.Separator`. -/
def Separator : Char := '/'

/-- Go `os.IsPathSeparator`. -/
def isPathSeparator (c : Char) : Bool := c == Separator

/-- The test `r == n || os.IsPathSeparator(path[r])` on the unread input. -/
def atEnd : Str → Bool
  | [] => true
  | c :: _ => isPathSeparator c

/-- The backtracking of the `..` case of `Clean`, started after `out.w--`:
`for out.w > dotdot && !os.IsPathSeparator(out.index(out.w)) { out.w-- }`.
The argument is `out.w`, the result is the final `out.w`; `buf` is the
buffer as written so far (decrementing `w` does not erase it). -/
def backtrack (buf : Str) (dotdot : Nat) : Nat → Nat
  | 0 => 0
  | w + 1 =>
    if w + 1 > dotdot ∧ isPathSeparator (buf.getD (w + 1) Separator) = false then
      backtrack buf dotdot w
    else w + 1

/-- The main loop of `Clean` (`for r < n { switch ... }`).  The unread
input `path[r:]` is the second list, `out` is the output buffer (`out.w` is
its length), `dotdot` the index where `..` must stop.  Every iteration
consumes at least one byte, so `n` iterations of fuel are enough. -/
def cleanLoop (rooted : Bool) : Nat → Str → Str → Nat → Str
  | 0, _, out, _ => out
  | _ + 1, [], out, _ => out
  | fuel + 1, c :: rest, out, dotdot =>
    if isPathSeparator c = true then
      -- empty path element
      cleanLoop rooted fuel rest out dotdot
    else if c = '.' ∧ atEnd rest = true then
      -- . element
      cleanLoop rooted fuel rest out dotdot
    else if c = '.' ∧ rest.head? = some '.' ∧ atEnd rest.tail = true then
      -- .. element: remove to last separator
      if out.length > dotdot then
        cleanLoop rooted fuel rest.tail
          (out.take (backtrack out dotdot (out.length - 1))) dotdot
      else if rooted = false then
        let out1 := if out.length > 0 then out ++ [Separator] else out
        let out2 := out1 ++ ['.', '.']
        cleanLoop rooted fuel rest.tail out2 out2.length
      else
        cleanLoop rooted fuel rest.tail out dotdot
    else
      -- real path element: add slash if needed, copy element
      let out1 :=
        if (rooted = true ∧ out.length ≠ 1) ∨ (rooted = false ∧ out.length ≠ 0) then
          out ++ [Separator]
        else out
      cleanLoop rooted fuel ((c :: rest).dropWhile (fun x => !isPathSeparator x))
        (out1 ++ (c :: rest).takeWhile (fun x => !isPathSeparator x)) dotdot

/-- Go `filepath.Clean` on Unix (no volume name). -/
def Clean (path : Str) : Str :=
  match path with
  | [] => ['.']
  | c :: rest =>
    let out :=
      if isPathSeparator c = true then cleanLoop true (c :: rest).length rest [Separator] 1
      else cleanLoop false (c :: rest).length (c :: rest) [] 0
    -- Turn empty string into "."
    if out.length = 0 then ['.'] else out

/-- Go `filepath.Join` of two elements: empty elements are ignored, the rest
joined with the separator and cleaned. -/
def Join (a b : Str) : Str :=
  if a ≠ [] then Clean (a ++ Separator :: b)
  else if b ≠ [] then Clean b
  else []

/-- Go `filepath.Dir` on Unix: everything up to and including the last
separator, cleaned. -/
def Dir (path : Str) : Str :=
  Clean (path.rdropWhile (fun x => !isPathSeparator x))

/-- Go `filepath.IsAbs` on Unix. -/
def IsAbs (path : Str) : Bool := strings.HasPrefix path ['/']

end filepath

/-! ## Data model -/

/-- The process configuration (`type Config`). -/
structure Config where
  Port : Str
  DocsPath : Str
  ConfigPath : Str
  AllowOrigin : Str

/-- Body of `PUT /api/docs/{id}`. -/
structure SaveContentRequest where
  Content : Str
deriving DecidableEq, Repr

/-- Body of `POST /api/files/upload`. -/
structure UploadFileRequest where
  FilePath : Str
  FileData : Str
deriving DecidableEq, Repr

/-- Body of `POST /api/files/rename`. -/
structure RenameFileRequest where
  OldPath : Str
  NewPath : Str
deriving DecidableEq, Repr

/-- A value in the maps the handlers pass to `jsonResponse`: a string, a
boolean or a `map[string]string`. -/
inductive JsonData where
  | str : Str → JsonData
  | bool : Bool → JsonData
  | strMap : List (Str × Str) → JsonData
deriving DecidableEq, Repr

/-- The standard-library codecs the handlers call.  `Value` is what
`json.Unmarshal` stores into an `interface{}`.  A decoder returns `none`
where the Go function returns a non-nil error. -/
structure Stdlib (Value : Type) where
  /-- Go `json.Unmarshal(body, &req)` with `req` a `SaveContentRequest`. -/
  unmarshalSaveContentRequest : Str → Option SaveContentRequest
  /-- Go `json.Unmarshal(body, &req)` with `req` an `UploadFileRequest`. -/
  unmarshalUploadFileRequest : Str → Option UploadFileRequest
  /-- Go `json.Unmarshal(body, &req)` with `req` a `RenameFileRequest`. -/
  unmarshalRenameFileRequest : Str → Option RenameFileRequest
  /-- Go `json.Unmarshal(data, &v)` with `v` an `interface{}`. -/
  unmarshalValue : Str → Option Value
  /-- Go `json.MarshalIndent(v, prefix, indent)`. -/
  MarshalIndent : Value → Str → Str → Option Str
  /-- Go `base64.StdEncoding.DecodeString`. -/
  DecodeString : Str → Option Str
  /-- What `json.NewEncoder(w).Encode(data)` writes for a `map[string]interface{}`. -/
  Encode : List (Str × JsonData) → Str

/-- An HTTP request as the handlers read it: `r.Method`, `r.URL.Path` and
the outcome of `io.ReadAll(r.Body)` (`none` when reading fails). -/
structure Request where
  Method : Str
  Path : Str
  Body : Option Str

/-- The response under construction: headers, status code (0 until the
header is written) and body. -/
structure ResponseWriter where
  header : List (Str × Str)
  status : Nat
  body : Str
deriving DecidableEq, Repr

namespace ResponseWriter

/-- The writer a handler starts with. -/
def new : ResponseWriter := ⟨[], 0, []⟩

/-- Go `w.Header().Set(key, value)`. -/
def Set (w : ResponseWriter) (key value : Str) : ResponseWriter :=
  { w with header := w.header.filter (fun kv => kv.1 ≠ key) ++ [(key, value)] }

/-- Go `w.Header().Get(key)`. -/
def Get (w : ResponseWriter) (key : Str) : Option Str :=
  (w.header.find? (fun kv => kv.1 = key)).map (fun kv => kv.2)

/-- Go `w.WriteHeader(code)`: only the first call counts. -/
def WriteHeader (w : ResponseWriter) (code : Nat) : ResponseWriter :=
  if w.status = 0 then { w with status := code } else w

/-- Go `w.Write(data)`: writes the header with 200 if none was written. -/
def Write (w : ResponseWriter) (data : Str) : ResponseWriter :=
  let w1 := w.WriteHeader 200
  { w1 with body := w1.body ++ data }

end ResponseWriter

def MethodGet : Str := "GET".toList
def MethodPut : Str := "PUT".toList
def MethodPost : Str := "POST".toList
def StatusOK : Nat := 200
def StatusBadRequest : Nat := 400
def StatusNotFound : Nat := 404
def StatusMethodNotAllowed : Nat := 405
def StatusConflict : Nat := 409
def StatusInternalServerError : Nat := 500

/-- Go `http.Error`: plain-text headers, the status, the message and a
newline. -/
def Error (w : ResponseWriter) (error : Str) (code : Nat) : ResponseWriter :=
  let w1 := w.Set "Content-Type".toList "text/plain; charset=utf-8".toList
  let w2 := w1.Set "X-Content-Type-Options".toList "nosniff".toList
  (w2.WriteHeader code).Write (error ++ ['\n'])

/-- The helper `jsonResponse`. -/
def jsonResponse {Value : Type} (lib : Stdlib Value) (w : ResponseWriter) (status : Nat)
    (data : List (Str × JsonData)) : ResponseWriter :=
  let w1 := w.Set "Content-Type".toList "application/json".toList
  (w1.WriteHeader status).Write (lib.Encode data)

/-! ## Programs over the operating system -/

/-- An error of package `os`, as far as the handlers look at it:
`os.IsNotExist(err)` or not. -/
inductive OSError where
  | notExist
  | other
deriving DecidableEq, Repr

/-- A handler body: the calls into `os` and `time` it makes, each continued
on the result, ending in a value. An error result `none` is Go's `nil`. -/
inductive Prog (α : Type) where
  | ret : α → Prog α
  | ReadFile : Str → (Except OSError Str → Prog α) → Prog α
  | Stat : Str → (Option OSError → Prog α) → Prog α
  | MkdirAll : Str → (Option OSError → Prog α) → Prog α
  | WriteFile : Str → Str → (Option OSError → Prog α) → Prog α
  | Rename : Str → Str → (Option OSError → Prog α) → Prog α
  | Now : (Str → Prog α) → Prog α

/-- An operating system over states `σ`.  Reading and `Stat` do not change
the state; the others return the new state with their error. -/
structure OS (σ : Type) where
  ReadFile : σ → Str → Except OSError Str
  Stat : σ → Str → Option OSError
  MkdirAll : σ → Str → Option OSError × σ
  WriteFile : σ → Str → Str → Option OSError × σ
  Rename : σ → Str → Str → Option OSError × σ
  /-- Go `time.Now().Format(time.RFC3339)`. -/
  Now : σ → Str

/-- Runs a program against an operating system from state `s`. -/
def Prog.run {σ α : Type} (os : OS σ) : Prog α → σ → α × σ
  | .ret a, s => (a, s)
  | .ReadFile p k, s => (k (os.ReadFile s p)).run os s
  | .Stat p k, s => (k (os.Stat s p)).run os s
  | .MkdirAll p k, s => (k (os.MkdirAll s p).1).run os (os.MkdirAll s p).2
  | .WriteFile p d k, s => (k (os.WriteFile s p d).1).run os (os.WriteFile s p d).2
  | .Rename p q k, s => (k (os.Rename s p q).1).run os (os.Rename s p q).2
  | .Now k, s => (k (os.Now s)).run os s

/-- A handler: `func(w http.ResponseWriter, r *http.Request)`. -/
abbrev HandlerFunc := ResponseWriter → Request → Prog ResponseWriter

/-! ## The handlers of `main.go` -/

section Handlers

variable {Value : Type}

/-- The CORS middleware: three headers on every response, and `OPTIONS`
answered with 200 without calling the wrapped handler. -/
def corsMiddleware (config : Config) (next : HandlerFunc) : HandlerFunc :=
  fun w r =>
    let w1 := w.Set "Access-Control-Allow-Origin".toList config.AllowOrigin
    let w2 := w1.Set "Access-Control-Allow-Methods".toList
      "GET, POST, PUT, DELETE, OPTIONS".toList
    let w3 := w2.Set "Access-Control-Allow-Headers".toList
      "Content-Type, Authorization".toList
    -- Handle preflight requests
    if r.Method = "OPTIONS".toList then
      .ret (w3.WriteHeader StatusOK)
    else
      next w3 r

/-- Health check handler. -/
def healthHandler (lib : Stdlib Value) (config : Config) : HandlerFunc :=
  fun w _ =>
    .Now fun now =>
      let response : List (Str × JsonData) := [
        ("status".toList, .str "healthy".toList),
        ("time".toList, .str now),
        ("config".toList, .strMap [
          ("docs_path".toList, config.DocsPath),
          ("config_path".toList, config.ConfigPath)])]
      .ret (jsonResponse lib w StatusOK response)

/-- Get documentation list handler. -/
def getDocListHandler (config : Config) : HandlerFunc :=
  fun w r =>
    if r.Method ≠ MethodGet then
      .ret (Error w "Method not allowed".toList StatusMethodNotAllowed)
    else
      let indexPath := filepath.Join config.DocsPath "index.json".toList
      .ReadFile indexPath fun res =>
        match res with
        | .error _ =>
          .ret (Error w "Failed to read documentation list".toList StatusInternalServerError)
        | .ok data =>
          .ret ((w.Set "Content-Type".toList "application/json".toList).Write data)

/-- The step "add .json extension if not present" of `getDocumentHandler`
and `saveDocumentHandler`. -/
def addJsonExt (docId : Str) : Str :=
  if strings.HasSuffix docId ".json".toList = false then docId ++ ".json".toList else docId

/-- Get single document. -/
def getDocumentHandler (config : Config) (w : ResponseWriter) (_r : Request)
    (docId : Str) : Prog ResponseWriter :=
  let docId := addJsonExt docId
  let docPath := filepath.Join config.DocsPath docId
  .ReadFile docPath fun res =>
    match res with
    | .error err =>
      if err = OSError.notExist then
        .ret (Error w "Document not found".toList StatusNotFound)
      else
        .ret (Error w "Failed to read document".toList StatusInternalServerError)
    | .ok data =>
      .ret ((w.Set "Content-Type".toList "application/json".toList).Write data)

/-- Save document. -/
def saveDocumentHandler (lib : Stdlib Value) (config : Config) (w : ResponseWriter)
    (r : Request) (docId : Str) : Prog ResponseWriter :=
  -- Read request body
  match r.Body with
  | none => .ret (Error w "Failed to read request body".toList StatusBadRequest)
  | some body =>
    match lib.unmarshalSaveContentRequest body with
    | none => .ret (Error w "Invalid JSON in request body".toList StatusBadRequest)
    | some req =>
      -- Validate that content is valid JSON
      match lib.unmarshalValue req.Content with
      | none => .ret (Error w "Content must be valid JSON".toList StatusBadRequest)
      | some contentData =>
        -- Pretty print the JSON before saving
        match lib.MarshalIndent contentData [] "  ".toList with
        | none => .ret (Error w "Failed to format JSON".toList StatusInternalServerError)
        | some prettyJSON =>
          let docId := addJsonExt docId
          -- Ensure directory exists
          let docPath := filepath.Join config.DocsPath docId
          let docDir := filepath.Dir docPath
          .MkdirAll docDir fun err =>
            match err with
            | some _ =>
              .ret (Error w "Failed to create directory".toList StatusInternalServerError)
            | none =>
              -- Write the file
              .WriteFile docPath prettyJSON fun err =>
                match err with
                | some _ =>
                  .ret (Error w "Failed to save document".toList StatusInternalServerError)
                | none =>
                  let response : List (Str × JsonData) := [
                    ("success".toList, .bool true),
                    ("message".toList,
                      .str ("Document ".toList ++ docId ++ " saved successfully".toList)),
                    ("docId".toList, .str docId)]
                  .ret (jsonResponse lib w StatusOK response)

/-- Document handler (GET and PUT). -/
def docHandler (lib : Stdlib Value) (config : Config) : HandlerFunc :=
  fun w r =>
    -- Extract docId from path: /api/docs/{docId}
    let docId := strings.TrimPrefix r.Path "/api/docs/".toList
    if docId = [] then
      .ret (Error w "Document ID is required".toList StatusBadRequest)
    -- Sanitize docId to prevent directory traversal
    else if strings.Contains docId "..".toList = true then
      .ret (Error w "Invalid document ID".toList StatusBadRequest)
    else
      -- Clean the path to remove any double slashes or other issues
      let docId := filepath.Clean docId
      if r.Method = MethodGet then getDocumentHandler config w r docId
      else if r.Method = MethodPut then saveDocumentHandler lib config w r docId
      else .ret (Error w "Method not allowed".toList StatusMethodNotAllowed)

/-- Get configuration. -/
def getConfigHandler (config : Config) (w : ResponseWriter) (_r : Request) :
    Prog ResponseWriter :=
  .ReadFile config.ConfigPath fun res =>
    match res with
    | .error _ =>
      .ret (Error w "Failed to read configuration".toList StatusInternalServerError)
    | .ok data =>
      .ret ((w.Set "Content-Type".toList "application/json".toList).Write data)

/-- Save configuration. -/
def saveConfigHandler (lib : Stdlib Value) (config : Config) (w : ResponseWriter)
    (r : Request) : Prog ResponseWriter :=
  match r.Body with
  | none => .ret (Error w "Failed to read request body".toList StatusBadRequest)
  | some body =>
    -- Validate JSON
    match lib.unmarshalValue body with
    | none => .ret (Error w "Invalid JSON format".toList StatusBadRequest)
    | some configData =>
      -- Pretty print
      match lib.MarshalIndent configData [] "  ".toList with
      | none => .ret (Error w "Failed to format JSON".toList StatusInternalServerError)
      | some prettyJSON =>
        -- Ensure directory exists
        let configDir := filepath.Dir config.ConfigPath
        .MkdirAll configDir fun err =>
          match err with
          | some _ =>
            .ret (Error w "Failed to create directory".toList StatusInternalServerError)
          | none =>
            .WriteFile config.ConfigPath prettyJSON fun err =>
              match err with
              | some _ =>
                .ret (Error w "Failed to save configuration".toList StatusInternalServerError)
              | none =>
                let response : List (Str × JsonData) := [
                  ("success".toList, .bool true),
                  ("message".toList, .str "Configuration saved successfully".toList)]
                .ret (jsonResponse lib w StatusOK response)

/-- Config handler (GET and PUT). -/
def configHandler (lib : Stdlib Value) (config : Config) : HandlerFunc :=
  fun w r =>
    if r.Method = MethodGet then getConfigHandler config w r
    else if r.Method = MethodPut then saveConfigHandler lib config w r
    else .ret (Error w "Method not allowed".toList StatusMethodNotAllowed)

/-- Upload file handler. -/
def uploadFileHandler (lib : Stdlib Value) (config : Config) : HandlerFunc :=
  fun w r =>
    if r.Method ≠ MethodPost then
      .ret (Error w "Method not allowed".toList StatusMethodNotAllowed)
    else
      match r.Body with
      | none => .ret (Error w "Failed to read request body".toList StatusBadRequest)
      | some body =>
        match lib.unmarshalUploadFileRequest body with
        | none => .ret (Error w "Invalid JSON format".toList StatusBadRequest)
        | some req =>
          -- Validate required fields
          if req.FilePath = [] then
            .ret (Error w "file_path is required".toList StatusBadRequest)
          else if req.FileData = [] then
            .ret (Error w "file_data is required".toList StatusBadRequest)
          -- Sanitize file path to prevent directory traversal
          else if strings.Contains req.FilePath "..".toList = true then
            .ret (Error w "Invalid file path".toList StatusBadRequest)
          else
            -- Clean the path
            let cleanPath := filepath.Clean req.FilePath
            -- Decode base64 data
            match lib.DecodeString req.FileData with
            | none => .ret (Error w "Invalid base64 data".toList StatusBadRequest)
            | some fileBytes =>
              -- Build full file path
              let fullPath := filepath.Join config.DocsPath cleanPath
              -- Ensure directory exists
              let fileDir := filepath.Dir fullPath
              .MkdirAll fileDir fun err =>
                match err with
                | some _ =>
                  .ret (Error w "Failed to create directory".toList StatusInternalServerError)
                | none =>
                  -- Write file
                  .WriteFile fullPath fileBytes fun err =>
                    match err with
                    | some _ =>
                      .ret (Error w "Failed to save file".toList StatusInternalServerError)
                    | none =>
                      let response : List (Str × JsonData) := [
                        ("success".toList, .bool true),
                        ("message".toList, .str "File uploaded successfully".toList),
                        ("file_path".toList, .str cleanPath)]
                      .ret (jsonResponse lib w StatusOK response)

/-- The step "add .json extension if not present" of `renameFileHandler`:
a path not ending in `.json` loses a trailing `.mdx` and gets `.json`. -/
def jsonSibling (path : Str) : Str :=
  if strings.HasSuffix path ".json".toList = false then
    strings.TrimSuffix path ".mdx".toList ++ ".json".toList
  else path

/-- Rename file handler. -/
def renameFileHandler (lib : Stdlib Value) (config : Config) : HandlerFunc :=
  fun w r =>
    if r.Method ≠ MethodPost then
      .ret (Error w "Method not allowed".toList StatusMethodNotAllowed)
    else
      match r.Body with
      | none => .ret (Error w "Failed to read request body".toList StatusBadRequest)
      | some body =>
        match lib.unmarshalRenameFileRequest body with
        | none => .ret (Error w "Invalid JSON format".toList StatusBadRequest)
        | some req =>
          -- Validate required fields
          if req.OldPath = [] then
            .ret (Error w "old_path is required".toList StatusBadRequest)
          else if req.NewPath = [] then
            .ret (Error w "new_path is required".toList StatusBadRequest)
          -- Sanitize paths to prevent directory traversal
          else if strings.Contains req.OldPath "..".toList = true
              ∨ strings.Contains req.NewPath "..".toList = true then
            .ret (Error w "Invalid file path".toList StatusBadRequest)
          else
            -- Clean the paths, add .json extension if not present
            let oldPath := jsonSibling (filepath.Clean req.OldPath)
            let newPath := jsonSibling (filepath.Clean req.NewPath)
            -- Build full file paths
            let fullOldPath := filepath.Join config.DocsPath oldPath
            let fullNewPath := filepath.Join config.DocsPath newPath
            -- Check if old file exists
            .Stat fullOldPath fun err =>
              if err = some OSError.notExist then
                .ret (Error w ("File not found: ".toList ++ oldPath) StatusNotFound)
              else
                -- Check if new file already exists
                .Stat fullNewPath fun err =>
                  if err = none then
                    .ret (Error w ("File already exists: ".toList ++ newPath) StatusConflict)
                  else
                    -- Ensure new directory exists
                    let newDir := filepath.Dir fullNewPath
                    .MkdirAll newDir fun err =>
                      match err with
                      | some _ =>
                        .ret (Error w "Failed to create directory".toList
                          StatusInternalServerError)
                      | none =>
                        -- Rename/move the file
                        .Rename fullOldPath fullNewPath fun err =>
                          match err with
                          | some _ =>
                            .ret (Error w "Failed to rename file".toList
                              StatusInternalServerError)
                          | none =>
                            let response : List (Str × JsonData) := [
                              ("success".toList, .bool true),
                              ("message".toList, .str "File renamed successfully".toList),
                              ("old_path".toList, .str oldPath),
                              ("new_path".toList, .str newPath)]
                            .ret (jsonResponse lib w StatusOK response)

/-- The routes `main` registers on its `http.ServeMux`: each pattern with
its handler, every handler wrapped in `corsMiddleware`. -/
def routes (lib : Stdlib Value) (config : Config) : List (Str × HandlerFunc) :=
  [("/api/docs/list".toList, corsMiddleware config (getDocListHandler config)),
   ("/api/docs/".toList, corsMiddleware config (docHandler lib config)),
   ("/api/config".toList, corsMiddleware config (configHandler lib config)),
   ("/api/files/upload".toList, corsMiddleware config (uploadFileHandler lib config)),
   ("/api/files/rename".toList, corsMiddleware config (renameFileHandler lib config)),
   ("/api/health".toList, corsMiddleware config (healthHandler lib config))]

/-- A request served by the route registered under `pattern`: the route's
handler is called with a fresh response writer (`http.NotFound` stands in
for a pattern that is not registered).  Which request paths the multiplexer
sends to a pattern is not part of this program and is not modelled; the
document route `/api/docs/` receives the paths that begin with its
pattern. -/
def serve (lib : Stdlib Value) (config : Config) (pattern : Str) (r : Request) :
    Prog ResponseWriter :=
  match (routes lib config).lookup pattern with
  | some handler => handler ResponseWriter.new r
  | none => .ret (Error ResponseWriter.new "404 page not found".toList StatusNotFound)

end Handlers

/-! ## Definitions used in the statements and proofs -/

namespace filepath

/-- The path elements of `s`: the runs between separators. -/
def elems : Str → List Str
  | [] => [[]]
  | c :: s => if c = '/' then [] :: elems s else (c :: (elems s).headD []) :: (elems s).tail

/-- The elements `Clean` copies when no element is `..`. -/
def kept (s : Str) : List Str := (elems s).filter (fun e => e ≠ [] ∧ e ≠ ['.'])

/-- The default case of the loop: add a slash if needed, copy the element. -/
def push (rooted : Bool) (out e : Str) : Str :=
  (if (rooted = true ∧ out.length ≠ 1) ∨ (rooted = false ∧ out.length ≠ 0) then
    out ++ [Separator] else out) ++ e

/-- The `..` case of the loop on the output buffer: the new buffer and `dotdot`. -/
def dotdotStep (rooted : Bool) (out : Str) (dotdot : Nat) : Str × Nat :=
  if out.length > dotdot then (out.take (backtrack out dotdot (out.length - 1)), dotdot)
  else if rooted = false then
    ((if out.length > 0 then out ++ [Separator] else out) ++ ['.', '.'],
     ((if out.length > 0 then out ++ [Separator] else out) ++ ['.', '.']).length)
  else (out, dotdot)

/-- Output buffers of the loop on a rooted path: the root, then elements
that are non-empty, free of separators and not `..`, each after a slash. -/
inductive RootedOut : Str → Prop
  | root : RootedOut ['/']
  | first (e : Str) : e ≠ [] → (∀ c ∈ e, c ≠ '/') → e ≠ ['.', '.'] → RootedOut ('/' :: e)
  | more (out e : Str) : RootedOut out → e ≠ [] → (∀ c ∈ e, c ≠ '/') → e ≠ ['.', '.'] →
      RootedOut (out ++ '/' :: e)

/-- No path element of `s` is `..`. -/
def NoDotDotElem (s : Str) : Prop := ∀ e ∈ elems s, e ≠ ['.', '.']

end filepath

/-- A path is lexically beneath `root`: it is `root` or starts with `root`
and a separator. -/
def Beneath (root path : Str) : Prop :=
  path = root ∨ (root ++ [filepath.Separator]) <+: path

/-- Lexically beneath `root`, the root `/` ending in the separator itself. -/
def BeneathRoot (root path : Str) : Prop :=
  path = root ∨ (root ++ [filepath.Separator]) <+: path
    ∨ (root = [filepath.Separator] ∧ root <+: path)

/-- The writer `corsMiddleware` hands on: `w` with the three CORS headers. -/
def withCORS (config : Config) (w : ResponseWriter) : ResponseWriter :=
  ((w.Set "Access-Control-Allow-Origin".toList config.AllowOrigin).Set
      "Access-Control-Allow-Methods".toList "GET, POST, PUT, DELETE, OPTIONS".toList).Set
    "Access-Control-Allow-Headers".toList "Content-Type, Authorization".toList

/-- `MkdirAll` creates directories only: which paths are readable as
regular files, and their contents, stay as they were. -/
def OS.MkdirAllKeepsFiles {σ : Type} (os : OS σ) : Prop :=
  ∀ (s : σ) (dir p : Str),
    (os.ReadFile (os.MkdirAll s dir).2 p).toOption = (os.ReadFile s p).toOption

/-- A `Rename` of a regular file to another path that reports no error
leaves the file's contents at the new path, nothing at the old path and
every other path as it was. -/
def OS.RenameMovesFile {σ : Type} (os : OS σ) : Prop :=
  ∀ (s s1 : σ) (a b data : Str), os.ReadFile s a = .ok data → a ≠ b →
    os.Rename s a b = (none, s1) →
    os.ReadFile s1 b = .ok data ∧ os.Stat s1 a = some OSError.notExist
      ∧ ∀ p, p ≠ a → p ≠ b → os.ReadFile s1 p = os.ReadFile s p

namespace Ref

/-- A decoded JSON value of the fragment; a number is the `float64` it was
decoded to, an object a map, held as its members in key order. -/
inductive JValue where
  | null
  | bool (b : Bool)
  | number (n : Nat)
  | string (s : Str)
  | array (items : List JValue)
  | object (members : List (Str × JValue))

/-- Skips JSON white space. -/
def skipSpace : Str → Str
  | [] => []
  | c :: s => if c = ' ' ∨ c = '\n' ∨ c = '\t' ∨ c = '\r' then skipSpace s else c :: s

/-- The value of a hexadecimal digit. -/
def hexVal (c : Char) : Option Nat :=
  if 48 ≤ c.toNat ∧ c.toNat ≤ 57 then some (c.toNat - 48)
  else if 97 ≤ c.toNat ∧ c.toNat ≤ 102 then some (c.toNat - 87)
  else if 65 ≤ c.toNat ∧ c.toNat ≤ 70 then some (c.toNat - 55)
  else none

/-- The character of a `\uXXXX` escape, given its four digits; a surrogate
is outside the fragment. -/
def unicodeEscape (a b c d : Char) : Option Char :=
  match hexVal a, hexVal b, hexVal c, hexVal d with
  | some x, some y, some z, some u =>
    if 55296 ≤ ((x * 16 + y) * 16 + z) * 16 + u ∧ ((x * 16 + y) * 16 + z) * 16 + u < 57344 then
      none
    else some (Char.ofNat (((x * 16 + y) * 16 + z) * 16 + u))
  | _, _, _, _ => none

/-- The rest of a string literal after its opening quote: the decoded
string and the input after the closing quote. -/
def parseString : Str → Option (Str × Str)
  | [] => none
  | c :: rest =>
    if c = '\"' then some ([], rest)
    else if c = '\\' then
      match rest with
      | [] => none
      | e :: rest2 =>
        if e = 'u' then
          match rest2 with
          | a :: b :: c2 :: d :: rest3 =>
            match unicodeEscape a b c2 d, parseString rest3 with
            | some ch, some (s, r) => some (ch :: s, r)
            | _, _ => none
          | _ => none
        else
          let decoded : Option Char :=
            if e = '\"' ∨ e = '\\' ∨ e = '/' then some e
            else if e = 'b' then some (Char.ofNat 8)
            else if e = 'f' then some (Char.ofNat 12)
            else if e = 'n' then some '\n'
            else if e = 'r' then some '\r'
            else if e = 't' then some '\t'
            else none
          match decoded, parseString rest2 with
          | some ch, some (s, r) => some (ch :: s, r)
          | _, _ => none
    else if c.toNat < 32 then none
    else
      match parseString rest with
      | some (s, r) => some (c :: s, r)
      | none => none

/-- Reads decimal digits onto `acc`. -/
def parseDigits : Str → Nat → Nat × Str
  | [], acc => (acc, [])
  | c :: s, acc =>
    if 48 ≤ c.toNat ∧ c.toNat ≤ 57 then parseDigits s (acc * 10 + (c.toNat - 48))
    else (acc, c :: s)

/-- The number of low bits a `float64` drops from `n`: the least `e`, from
`e` on and within `fuel` steps, that leaves `n / 2^e` below `2^53`. -/
def float64Shift (n : Nat) : Nat → Nat → Nat
  | 0, e => e
  | fuel + 1, e => if n / 2 ^ e < 2 ^ 53 then e else float64Shift n fuel (e + 1)

/-- The `float64` nearest to a natural number below `2^71` (round to
nearest, ties to even): below `2^53` the number itself, else the leading 53
bits rounded. -/
def toFloat64 (n : Nat) : Nat :=
  let e := float64Shift n 18 0
  let q := n / 2 ^ e
  let r := n % 2 ^ e
  if 2 * r > 2 ^ e ∨ (2 * r = 2 ^ e ∧ q % 2 = 1) then (q + 1) * 2 ^ e else q * 2 ^ e

/-- The multiple of `10^k` next to the `float64` `f` that reads back as `f`,
the nearer one if both do. -/
def shortestAt (f k : Nat) : Option Nat :=
  let lo := f / 10 ^ k * 10 ^ k
  let hi := lo + 10 ^ k
  if toFloat64 lo = f ∧ toFloat64 hi = f then some (if f - lo ≤ hi - f then lo else hi)
  else if toFloat64 lo = f then some lo
  else if toFloat64 hi = f then some hi
  else none

/-- Go `strconv.FormatFloat(f, 'f', -1, 64)` for an integral `f` below
`10^21`: the decimal with the fewest significant digits that reads back as
`f`. -/
def formatFloat (f : Nat) : Str :=
  (Nat.repr (((List.range 21).reverse.findSome? (shortestAt f)).getD f)).toList

/-- Byte order on strings, the order `encoding/json` sorts map keys in. -/
def strLt : Str → Str → Bool
  | [], [] => false
  | [], _ :: _ => true
  | _ :: _, [] => false
  | a :: as, b :: bs => decide (a.toNat < b.toNat) || (decide (a = b) && strLt as bs)

/-- Puts a member into a key-sorted list, replacing an equal key (a map
keeps the last value decoded for a key). -/
def insertMember {α : Type} (k : Str) (v : α) : List (Str × α) → List (Str × α)
  | [] => [(k, v)]
  | (k1, v1) :: ms =>
    if k = k1 then (k, v) :: ms
    else if strLt k k1 = true then (k, v) :: (k1, v1) :: ms
    else (k1, v1) :: insertMember k v ms

/-- The members of a map in key order. -/
def sortMembers {α : Type} (ms : List (Str × α)) : List (Str × α) :=
  ms.foldl (fun acc kv => insertMember kv.1 kv.2 acc) []

/-- Array items after `[` or a comma, each read by `value`, up to `]`. -/
def parseItems (value : Str → Option (JValue × Str)) : Nat → Str → Option (List JValue × Str)
  | 0, _ => none
  | fuel + 1, s =>
    match value s with
    | none => none
    | some (v, rest) =>
      match skipSpace rest with
      | c :: rest2 =>
        if c = ']' then some ([v], rest2)
        else if c = ',' then
          match parseItems value fuel rest2 with
          | some (vs, r) => some (v :: vs, r)
          | none => none
        else none
      | [] => none

/-- Object members after `\x7b` or a comma, each value read by `value`, up
to `\x7d`. -/
def parseMembers (value : Str → Option (JValue × Str)) :
    Nat → Str → Option (List (Str × JValue) × Str)
  | 0, _ => none
  | fuel + 1, s =>
    match skipSpace s with
    | q :: s1 =>
      if q = '\"' then
        match parseString s1 with
        | none => none
        | some (key, s2) =>
          match skipSpace s2 with
          | colon :: s3 =>
            if colon = ':' then
              match value s3 with
              | none => none
              | some (v, rest) =>
                match skipSpace rest with
                | c :: rest2 =>
                  if c = '\x7d' then some ([(key, v)], rest2)
                  else if c = ',' then
                    match parseMembers value fuel rest2 with
                    | some (ms, r) => some ((key, v) :: ms, r)
                    | none => none
                  else none
                | [] => none
            else none
          | [] => none
      else none
    | [] => none

/-- Whether `lit` starts `s`; then the rest of `s`. -/
def literal (lit s : Str) : Option Str :=
  if strings.HasPrefix s lit = true then some (s.drop lit.length) else none

/-- One JSON value at the start of the input (after white space). -/
def parseValue : Nat → Str → Option (JValue × Str)
  | 0, _ => none
  | fuel + 1, s =>
    match skipSpace s with
    | [] => none
    | c :: rest =>
      if c = 'n' then (literal "ull".toList rest).map (fun r => (JValue.null, r))
      else if c = 't' then (literal "rue".toList rest).map (fun r => (JValue.bool true, r))
      else if c = 'f' then (literal "alse".toList rest).map (fun r => (JValue.bool false, r))
      else if c = '\"' then (parseString rest).map (fun sr => (JValue.string sr.1, sr.2))
      else if c = '0' then
        match rest with
        | d :: _ => if 48 ≤ d.toNat ∧ d.toNat ≤ 57 then none else some (JValue.number 0, rest)
        | [] => some (JValue.number 0, rest)
      else if 49 ≤ c.toNat ∧ c.toNat ≤ 57 then
        if toFloat64 (parseDigits (c :: rest) 0).1 < 10 ^ 21 then
          some (JValue.number (toFloat64 (parseDigits (c :: rest) 0).1),
            (parseDigits (c :: rest) 0).2)
        else none
      else if c = '[' then
        match skipSpace rest with
        | d :: rest2 =>
          if d = ']' then some (JValue.array [], rest2)
          else (parseItems (parseValue fuel) fuel rest).map (fun vr => (JValue.array vr.1, vr.2))
        | [] => none
      else if c = '\x7b' then
        match skipSpace rest with
        | d :: rest2 =>
          if d = '\x7d' then some (JValue.object [], rest2)
          else
            (parseMembers (parseValue fuel) fuel rest).map
              (fun mr => (JValue.object (sortMembers mr.1), mr.2))
        | [] => none
      else none

/-- A whole JSON text: one value and nothing but white space after it. -/
def parse (s : Str) : Option JValue :=
  match parseValue (s.length + 1) s with
  | some (v, rest) => if skipSpace rest = [] then some v else none
  | none => none

/-- The two hexadecimal digits of a number below 256. -/
def hex2 (n : Nat) : Str :=
  let digit (d : Nat) : Char := if d < 10 then Char.ofNat (48 + d) else Char.ofNat (87 + d)
  [digit (n / 16 % 16), digit (n % 16)]

/-- A string as `encoding/json` writes it (HTML escaping on). -/
def quote (s : Str) : Str :=
  let esc (c : Char) : Str :=
    if c = '\"' then ['\\', '\"']
    else if c = '\\' then ['\\', '\\']
    else if c = '\n' then ['\\', 'n']
    else if c = '\r' then ['\\', 'r']
    else if c = '\t' then ['\\', 't']
    else if c = '<' ∨ c = '>' ∨ c = '&' ∨ c.toNat < 32 then
      ['\\', 'u', '0', '0'] ++ hex2 c.toNat
    else [c]
  '\"' :: (s.map esc).flatten ++ ['\"']

/-- The line break of `json.Indent`: newline, prefix, `depth` indents. -/
def newline (pre indent : Str) (depth : Nat) : Str :=
  '\n' :: pre ++ (List.replicate depth indent).flatten

/-- Joins rendered parts with `sep`. -/
def joinWith (sep : Str) : List Str → Str
  | [] => []
  | [x] => x
  | x :: y :: rest => x ++ sep ++ joinWith sep (y :: rest)

/-- The indented text of a value at nesting `depth`; the fuel bounds the
nesting. -/
def render (pre indent : Str) : Nat → Nat → JValue → Option Str
  | 0, _, _ => none
  | _ + 1, _, .null => some "null".toList
  | _ + 1, _, .bool b => some (if b then "true".toList else "false".toList)
  | _ + 1, _, .number n => some (formatFloat n)
  | _ + 1, _, .string s => some (quote s)
  | fuel + 1, depth, .array items =>
    if items.isEmpty = true then some "[]".toList
    else
      (items.mapM (render pre indent fuel (depth + 1))).map fun parts =>
        '[' :: newline pre indent (depth + 1)
          ++ joinWith (',' :: newline pre indent (depth + 1)) parts
          ++ newline pre indent depth ++ [']']
  | fuel + 1, depth, .object members =>
    if members.isEmpty = true then some "\x7b\x7d".toList
    else
      ((sortMembers members).mapM fun kv =>
          (render pre indent fuel (depth + 1) kv.2).map fun text =>
            quote kv.1 ++ [':', ' '] ++ text).map fun parts =>
        '\x7b' :: newline pre indent (depth + 1)
          ++ joinWith (',' :: newline pre indent (depth + 1)) parts
          ++ newline pre indent depth ++ ['\x7d']

/-- The string value of member `key` of a decoded struct: absent and `null`
leave the field empty, any other non-string is a type error. -/
def field (members : List (Str × JValue)) (key : Str) : Option Str :=
  match (sortMembers members).find? (fun kv => kv.1 = key) with
  | none => some []
  | some (_, .string s) => some s
  | some (_, .null) => some []
  | some _ => none

/-- Decoding into a struct: the members of an object, none for `null`. -/
def structMembers (body : Str) : Option (List (Str × JValue)) :=
  match parse body with
  | some (.object members) => some members
  | some .null => some []
  | _ => none

/-- The compact text of a response value. -/
def encodeData : JsonData → Str
  | .str s => quote s
  | .bool b => if b then "true".toList else "false".toList
  | .strMap m =>
    '\x7b' :: joinWith [','] ((sortMembers m).map fun kv => quote kv.1 ++ [':'] ++ quote kv.2)
      ++ ['\x7d']

/-- The value of a base64 digit. -/
def b64 (c : Char) : Option Nat :=
  if 65 ≤ c.toNat ∧ c.toNat ≤ 90 then some (c.toNat - 65)
  else if 97 ≤ c.toNat ∧ c.toNat ≤ 122 then some (c.toNat - 71)
  else if 48 ≤ c.toNat ∧ c.toNat ≤ 57 then some (c.toNat + 4)
  else if c = '+' then some 62
  else if c = '/' then some 63
  else none

/-- Decodes padded base64 quanta of four digits. -/
def decodeQuanta : Str → Option Str
  | [] => some []
  | a :: b :: c :: d :: rest =>
    match b64 a, b64 b with
    | some x, some y =>
      if rest = [] ∧ c = '=' ∧ d = '=' then some [Char.ofNat ((x * 4 + y / 16) % 256)]
      else
        match b64 c with
        | none => none
        | some z =>
          if rest = [] ∧ d = '=' then
            some [Char.ofNat ((x * 4 + y / 16) % 256), Char.ofNat ((y * 16 + z / 4) % 256)]
          else
            match b64 d, decodeQuanta rest with
            | some u, some tail =>
              some (Char.ofNat ((x * 4 + y / 16) % 256) :: Char.ofNat ((y * 16 + z / 4) % 256)
                :: Char.ofNat ((z * 64 + u) % 256) :: tail)
            | _, _ => none
    | _, _ => none
  | _ => none

/-- The reference standard library. -/
def stdlib : Stdlib JValue where
  unmarshalSaveContentRequest body :=
    (structMembers body).bind fun ms =>
      (field ms "content".toList).map fun c => ⟨c⟩
  unmarshalUploadFileRequest body :=
    (structMembers body).bind fun ms =>
      (field ms "file_path".toList).bind fun p =>
        (field ms "file_data".toList).map fun d => ⟨p, d⟩
  unmarshalRenameFileRequest body :=
    (structMembers body).bind fun ms =>
      (field ms "old_path".toList).bind fun o =>
        (field ms "new_path".toList).map fun n => ⟨o, n⟩
  unmarshalValue := parse
  MarshalIndent v pre indent := render pre indent 64 0 v
  DecodeString data := decodeQuanta (data.filter fun c => c ≠ '\r' ∧ c ≠ '\n')
  Encode data :=
    '\x7b' :: joinWith [','] ((sortMembers data).map fun kv =>
        quote kv.1 ++ [':'] ++ encodeData kv.2)
      ++ ['\x7d', '\n']

/-- A filesystem node. -/
inductive Node where
  | file (data : Str)
  | dir
deriving DecidableEq, Repr

/-- A filesystem: what is at each path. -/
abbrev FS := Str → Option Node

/-- The filesystem with `p` set to `n`. -/
def FS.set (fs : FS) (p : Str) (n : Option Node) : FS :=
  fun q => if q = p then n else fs q

/-- Go `os.MkdirAll`: nothing to do on a directory, an error on a regular
file, else the parent first and then the directory itself. -/
def mkdirAll : Nat → FS → Str → Option OSError × FS
  | 0, fs, _ => (some OSError.other, fs)
  | fuel + 1, fs, p =>
    match fs p with
    | some Node.dir => (none, fs)
    | some (Node.file _) => (some OSError.other, fs)
    | none =>
      match mkdirAll fuel fs (filepath.Dir p) with
      | (some e, fs1) => (some e, fs1)
      | (none, fs1) => (none, fs1.set p (some Node.dir))

/-- The reference operating system. -/
def os : OS FS where
  ReadFile fs p :=
    match fs p with
    | some (Node.file data) => .ok data
    | some Node.dir => .error OSError.other
    | none => .error OSError.notExist
  Stat fs p :=
    match fs p with
    | some _ => none
    | none => some OSError.notExist
  MkdirAll fs p := mkdirAll (p.length + 1) fs p
  WriteFile fs p data :=
    match fs p, fs (filepath.Dir p) with
    | some Node.dir, _ => (some OSError.other, fs)
    | _, some Node.dir => (none, fs.set p (some (Node.file data)))
    | _, some (Node.file _) => (some OSError.other, fs)
    | _, none => (some OSError.notExist, fs)
  Rename fs a b :=
    match fs a, fs (filepath.Dir b) with
    | none, _ => (some OSError.notExist, fs)
    | some n, some Node.dir =>
      if a = b then (none, fs)
      else if fs b = some Node.dir then (some OSError.other, fs)
      else
        (none, fun q =>
          if q = b then some n
          else if q = a then none
          else
            match n with
            | Node.file _ => fs q
            | Node.dir =>
              if strings.HasPrefix q (a ++ ['/']) = true then none
              else if strings.HasPrefix q (b ++ ['/']) = true then fs (a ++ q.drop b.length)
              else fs q)
    | some _, some (Node.file _) => (some OSError.other, fs)
    | some _, none => (some OSError.notExist, fs)
  Now _ := "2025-01-01T00:00:00Z".toList

/-- Whether a proper prefix of the path `acc ++ p` that ends before a
separator of `p` is a regular file. -/
def underFile (fs : FS) (acc : Str) : Str → Bool
  | [] => false
  | c :: rest =>
    (c == '/' && (match fs acc with
      | some (Node.file _) => true
      | _ => false)) || underFile fs (acc ++ [c]) rest

/-- The reference operating system with `ENOTDIR`: a call on a path beneath
a regular file fails with an error that is not `IsNotExist`, as on Linux. -/
def osNotDir : OS FS where
  ReadFile fs p := if underFile fs [] p = true then .error OSError.other else os.ReadFile fs p
  Stat fs p := if underFile fs [] p = true then some OSError.other else os.Stat fs p
  MkdirAll fs p := os.MkdirAll fs p
  WriteFile fs p data :=
    if underFile fs [] p = true then (some OSError.other, fs) else os.WriteFile fs p data
  Rename fs a b :=
    if underFile fs [] a = true ∨ underFile fs [] b = true then (some OSError.other, fs)
    else os.Rename fs a b
  Now fs := os.Now fs

/-- A configuration: documents under `/srv/docs`. -/
def config : Config where
  Port := "8080".toList
  DocsPath := "/srv/docs".toList
  ConfigPath := "/srv/docs/gitdocai.config.json".toList
  AllowOrigin := "http://localhost:5173".toList

/-- A documents directory holding `a.json` and `c.json`. -/
def fs0 : FS := fun p =>
  if p = "/".toList ∨ p = "/srv".toList ∨ p = "/srv/docs".toList then some Node.dir
  else if p = "/srv/docs/a.json".toList then some (Node.file "\x7b\"title\": \"A\"\x7d".toList)
  else if p = "/srv/docs/c.json".toList then some (Node.file "[]".toList)
  else none

/-- The scenario request that renames `a.mdx` to `b`. -/
def renameAB : Request :=
  ⟨MethodPost, "/api/files/rename".toList,
    some "\x7b\"old_path\":\"a.mdx\",\"new_path\":\"b\"\x7d".toList⟩

/-- A request that renames `a.json/x`, a path beneath the regular file
`a.json`, to `sub/c`. -/
def renameBeneathFile : Request :=
  ⟨MethodPost, "/api/files/rename".toList,
    some "\x7b\"old_path\":\"a.json/x\",\"new_path\":\"sub/c\"\x7d".toList⟩

end Ref

/-! ## The path functions on the library's own examples -/

/-- `Clean` on rows of the table the library tests it with. -/
theorem filepath.Clean_examples :
    filepath.Clean "".toList = ".".toList
    ∧ filepath.Clean "abc/def".toList = "abc/def".toList
    ∧ filepath.Clean "/".toList = "/".toList
    ∧ filepath.Clean "../../abc".toList = "../../abc".toList
    ∧ filepath.Clean "abc/".toList = "abc".toList
    ∧ filepath.Clean "./".toList = ".".toList
    ∧ filepath.Clean "abc//def//ghi".toList = "abc/def/ghi".toList
    ∧ filepath.Clean "//abc//".toList = "/abc".toList
    ∧ filepath.Clean "/./abc/def".toList = "/abc/def".toList
    ∧ filepath.Clean "abc/def/ghi/../jkl".toList = "abc/def/jkl".toList
    ∧ filepath.Clean "abc/def/../..".toList = ".".toList
    ∧ filepath.Clean "/abc/def/../../..".toList = "/".toList
    ∧ filepath.Clean "abc/def/../../../ghi/jkl/../../../mno".toList = "../../mno".toList
    ∧ filepath.Clean "/../abc".toList = "/abc".toList
    ∧ filepath.Clean "abc/../../././../def".toList = "../../def".toList := by
  decide

/-- `Join` and `Dir` on rows of the tables the library tests them with. -/
theorem filepath.Join_Dir_examples :
    filepath.Join "a".toList "b".toList = "a/b".toList
    ∧ filepath.Join "a".toList [] = "a".toList
    ∧ filepath.Join [] "b".toList = "b".toList
    ∧ filepath.Join "/".toList "a".toList = "/a".toList
    ∧ filepath.Join "/".toList [] = "/".toList
    ∧ filepath.Join "a/".toList "b".toList = "a/b".toList
    ∧ filepath.Join [] [] = []
    ∧ filepath.Dir "".toList = ".".toList
    ∧ filepath.Dir "/.".toList = "/".toList
    ∧ filepath.Dir "/foo".toList = "/".toList
    ∧ filepath.Dir "x/".toList = "x".toList
    ∧ filepath.Dir "abc".toList = ".".toList
    ∧ filepath.Dir "abc/def".toList = "abc".toList
    ∧ filepath.Dir "a/b/.x".toList = "a/b".toList := by
  decide

/-! ## Path resolution stays beneath the documents root -/

namespace filepath

theorem elems_ne_nil (s : Str) : elems s ≠ [] := by
  cases s with
  | nil => simp [elems]
  | cons c s => by_cases h : c = '/' <;> simp [elems, h]

theorem elems_cons_sep (s : Str) : elems ('/' :: s) = [] :: elems s := by
  simp [elems]

theorem elems_append_sep (a b : Str) : elems (a ++ '/' :: b) = elems a ++ elems b := by
  induction a with
  | nil => simp [elems]
  | cons c a ih =>
    by_cases h : c = '/'
    · simp [elems, h, ih]
    · have hne := elems_ne_nil a
      cases hE : elems a with
      | nil => exact absurd hE hne
      | cons x xs => simp [elems, h, ih, hE]

theorem elems_nosep (e : Str) (he : ∀ c ∈ e, c ≠ '/') : elems e = [e] := by
  induction e with
  | nil => simp [elems]
  | cons c e ih =>
    have h1 : c ≠ '/' := he c (by simp)
    have h2 := ih (fun x hx => he x (by simp [hx]))
    simp [elems, h1, h2]

theorem elems_append_nosep (t : Str) :
    ∃ D l, elems t = D ++ [l] ∧ ∀ x : Str, (∀ c ∈ x, c ≠ '/') → elems (t ++ x) = D ++ [l ++ x] := by
  induction t with
  | nil => exact ⟨[], [], by simp [elems], fun x hx => by simpa using elems_nosep x hx⟩
  | cons c t ih =>
    obtain ⟨D, l, h1, h2⟩ := ih
    by_cases h : c = '/'
    · refine ⟨[] :: D, l, by simp [elems, h, h1], fun x hx => ?_⟩
      simp [elems, h, h2 x hx]
    · cases D with
      | nil =>
        refine ⟨[], c :: l, by simp [elems, h, h1], fun x hx => ?_⟩
        simp [elems, h, h2 x hx]
      | cons d D =>
        refine ⟨(c :: d) :: D, l, by simp [elems, h, h1], fun x hx => ?_⟩
        simp [elems, h, h2 x hx]

theorem elems_no_sep (s : Str) : ∀ e ∈ elems s, ∀ c ∈ e, c ≠ '/' := by
  induction s with
  | nil => simp [elems]
  | cons c s ih =>
    by_cases h : c = '/'
    · intro e he
      simp only [elems, h, if_true, List.mem_cons] at he
      rcases he with rfl | he
      · simp
      · exact ih e he
    · have hne := elems_ne_nil s
      cases hE : elems s with
      | nil => exact absurd hE hne
      | cons x xs =>
        rw [hE] at ih
        intro e he
        simp only [elems, h, if_false, hE, List.headD_cons, List.tail_cons, List.mem_cons] at he
        rcases he with rfl | he
        · intro y hy
          simp only [List.mem_cons] at hy
          rcases hy with rfl | hy
          · exact h
          · exact ih x (by simp) y hy
        · exact ih e (by simp [he])


theorem atEnd_dropWhile (s : Str) :
    atEnd (s.dropWhile (fun x => !isPathSeparator x)) = true := by
  induction s with
  | nil => simp [atEnd]
  | cons c s ih =>
    by_cases h : isPathSeparator c = true
    · simp [List.dropWhile, h, atEnd]
    · simp only [Bool.not_eq_true] at h
      simpa [List.dropWhile, h] using ih

theorem elems_of_atEnd (s : Str) (h : atEnd s = true) : elems s = [] :: (elems s).tail := by
  cases s with
  | nil => simp [elems]
  | cons c s =>
    have : c = '/' := by simpa [atEnd, isPathSeparator, Separator] using h
    simp [elems, this]

theorem elems_eq_takeWhile (s : Str) :
    elems s = s.takeWhile (fun x => !isPathSeparator x)
      :: (elems (s.dropWhile (fun x => !isPathSeparator x))).tail := by
  induction s with
  | nil => simp [elems]
  | cons c s ih =>
    by_cases h : c = '/'
    · subst h
      simp [elems, List.takeWhile, List.dropWhile, isPathSeparator, Separator]
    · have h2 : isPathSeparator c = false := by simpa [isPathSeparator, Separator] using h
      simp only [elems, h, if_false, List.takeWhile, List.dropWhile, h2, Bool.not_false]
      rw [ih]
      simp

theorem kept_of_atEnd (s : Str) (h : atEnd s = true) :
    kept s = (elems s).tail.filter (fun e => e ≠ [] ∧ e ≠ ['.']) := by
  unfold kept
  conv_lhs => rw [elems_of_atEnd s h]
  simp

theorem kept_cons_sep (s : Str) : kept ('/' :: s) = kept s := by
  simp [kept, elems]

theorem kept_eq (s : Str) :
    kept s = [s.takeWhile (fun x => !isPathSeparator x)].filter (fun e => e ≠ [] ∧ e ≠ ['.'])
      ++ kept (s.dropWhile (fun x => !isPathSeparator x)) := by
  rw [kept_of_atEnd _ (atEnd_dropWhile s)]
  conv_lhs => rw [kept, elems_eq_takeWhile s]
  rw [show ∀ (x : Str) (xs : List Str), x :: xs = [x] ++ xs from fun _ _ => rfl,
    List.filter_append]

theorem elems_dropWhile_subset (s : Str) :
    ∀ e ∈ elems (s.dropWhile (fun x => !isPathSeparator x)), e = [] ∨ e ∈ elems s := by
  intro e he
  rw [elems_of_atEnd _ (atEnd_dropWhile s)] at he
  rw [elems_eq_takeWhile s]
  simp only [List.mem_cons] at he ⊢
  rcases he with h | h
  · exact Or.inl h
  · exact Or.inr (Or.inr h)

/-- One iteration of the loop at a byte that is not a separator, by the
element that starts there. -/
theorem cleanLoop_step (rooted : Bool) (fuel : Nat) (c : Char) (rest out : Str) (dotdot : Nat)
    (hc : c ≠ '/') :
    cleanLoop rooted (fuel + 1) (c :: rest) out dotdot =
      if (c :: rest).takeWhile (fun x => !isPathSeparator x) = ['.'] then
        cleanLoop rooted fuel ((c :: rest).dropWhile (fun x => !isPathSeparator x)) out dotdot
      else if (c :: rest).takeWhile (fun x => !isPathSeparator x) = ['.', '.'] then
        cleanLoop rooted fuel ((c :: rest).dropWhile (fun x => !isPathSeparator x))
          (dotdotStep rooted out dotdot).1 (dotdotStep rooted out dotdot).2
      else
        cleanLoop rooted fuel ((c :: rest).dropWhile (fun x => !isPathSeparator x))
          (push rooted out ((c :: rest).takeWhile (fun x => !isPathSeparator x))) dotdot := by
  have hs : isPathSeparator c = false := by simpa [isPathSeparator, Separator] using hc
  have hsl : isPathSeparator '/' = true := rfl
  by_cases hdot : c = '.'
  · subst hdot
    cases rest with
    | nil => simp [cleanLoop, atEnd, hs, List.takeWhile_cons, List.dropWhile_cons]
    | cons d r2 =>
      by_cases hd : d = '/'
      · subst hd
        simp [cleanLoop, atEnd, hs, hsl, List.takeWhile_cons, List.dropWhile_cons]
      · have hds : isPathSeparator d = false := by simpa [isPathSeparator, Separator] using hd
        by_cases hd2 : d = '.'
        · subst hd2
          cases r2 with
          | nil =>
            simp [cleanLoop, atEnd, hs, List.takeWhile_cons, List.dropWhile_cons, dotdotStep]
            split_ifs <;> rfl
          | cons x r3 =>
            by_cases hx : x = '/'
            · subst hx
              simp [cleanLoop, atEnd, hs, hsl, List.takeWhile_cons, List.dropWhile_cons,
                dotdotStep]
              split_ifs <;> rfl
            · have hxs : isPathSeparator x = false := by
                simpa [isPathSeparator, Separator] using hx
              simp [cleanLoop, atEnd, hxs, hs, List.takeWhile_cons, List.dropWhile_cons, push]
        · simp [cleanLoop, atEnd, hds, hs, List.takeWhile_cons, List.dropWhile_cons, push, hd2]
  · simp [cleanLoop, hs, hdot, List.takeWhile_cons, List.dropWhile_cons, push]


theorem length_dropWhile_cons_le (c : Char) (rest : Str) (fuel : Nat)
    (hs : isPathSeparator c = false) (hl : (c :: rest).length ≤ fuel + 1) :
    ((c :: rest).dropWhile (fun x => !isPathSeparator x)).length ≤ fuel := by
  have h1 : (c :: rest).dropWhile (fun x => !isPathSeparator x)
      = rest.dropWhile (fun x => !isPathSeparator x) := by
    simp [List.dropWhile_cons, hs]
  rw [h1]
  have h2 := (List.dropWhile_sublist (fun x => !isPathSeparator x) (l := rest)).length_le
  simp only [List.length_cons] at hl
  omega

/-- The fuel `Clean` gives the loop is enough: with at least as much fuel
as unread bytes the result does not depend on the fuel. -/
theorem cleanLoop_fuel (rooted : Bool) :
    ∀ (fuel fuel2 : Nat) (s out : Str) (dotdot : Nat), s.length ≤ fuel → s.length ≤ fuel2 →
      cleanLoop rooted fuel s out dotdot = cleanLoop rooted fuel2 s out dotdot := by
  intro fuel
  induction fuel with
  | zero =>
    intro fuel2 s out dotdot hl _
    have : s = [] := by simpa using hl
    subst this
    cases fuel2 <;> simp [cleanLoop]
  | succ fuel ih =>
    intro fuel2 s out dotdot hl hl2
    cases s with
    | nil => cases fuel2 <;> simp [cleanLoop]
    | cons c rest =>
      cases fuel2 with
      | zero => simp at hl2
      | succ fuel2 =>
        by_cases hc : c = '/'
        · subst hc
          have h1 : ∀ f, cleanLoop rooted (f + 1) ('/' :: rest) out dotdot
              = cleanLoop rooted f rest out dotdot := by
            intro f
            simp [cleanLoop, isPathSeparator, Separator]
          rw [h1, h1]
          exact ih _ _ _ _ (by simpa using hl) (by simpa using hl2)
        · have hs : isPathSeparator c = false := by
            simpa [isPathSeparator, Separator] using hc
          have ht := length_dropWhile_cons_le c rest fuel hs hl
          have ht2 := length_dropWhile_cons_le c rest fuel2 hs hl2
          rw [cleanLoop_step _ _ _ _ _ _ hc, cleanLoop_step _ _ _ _ _ _ hc]
          split_ifs
          · exact ih _ _ _ _ ht ht2
          · exact ih _ _ _ _ ht ht2
          · exact ih _ _ _ _ ht ht2

theorem cleanLoop_noDotDot (rooted : Bool) (dotdot : Nat) :
    ∀ (fuel : Nat) (s out : Str), s.length ≤ fuel → (∀ e ∈ elems s, e ≠ ['.', '.']) →
      cleanLoop rooted fuel s out dotdot = (kept s).foldl (push rooted) out := by
  intro fuel
  induction fuel with
  | zero =>
    intro s out hl _
    have : s = [] := by simpa using hl
    subst this
    simp [cleanLoop, kept, elems]
  | succ fuel ih =>
    intro s out hl hdd
    cases s with
    | nil => simp [cleanLoop, kept, elems]
    | cons c rest =>
      by_cases hc : c = '/'
      · subst hc
        have h1 : cleanLoop rooted (fuel + 1) ('/' :: rest) out dotdot
            = cleanLoop rooted fuel rest out dotdot := by
          simp [cleanLoop, isPathSeparator, Separator]
        rw [h1, kept_cons_sep]
        apply ih
        · simpa using hl
        · intro e he
          exact hdd e (by simp [elems, he])
      · have hs : isPathSeparator c = false := by simpa [isPathSeparator, Separator] using hc
        have htl : ((c :: rest).dropWhile (fun x => !isPathSeparator x)).length ≤ fuel := by
          have h1 : (c :: rest).dropWhile (fun x => !isPathSeparator x)
              = rest.dropWhile (fun x => !isPathSeparator x) := by
            simp [List.dropWhile_cons, hs]
          rw [h1]
          have h2 := (List.dropWhile_sublist (fun x => !isPathSeparator x) (l := rest)).length_le
          simp only [List.length_cons] at hl
          omega
        have hdd2 : ∀ e ∈ elems ((c :: rest).dropWhile (fun x => !isPathSeparator x)),
            e ≠ ['.', '.'] := by
          intro e he
          rcases elems_dropWhile_subset (c :: rest) e he with h | h
          · simp [h]
          · exact hdd e h
        have hmem : (c :: rest).takeWhile (fun x => !isPathSeparator x) ∈ elems (c :: rest) := by
          rw [elems_eq_takeWhile (c :: rest)]
          simp
        have hne : (c :: rest).takeWhile (fun x => !isPathSeparator x) ≠ [] := by
          simp [List.takeWhile_cons, hs]
        rw [cleanLoop_step _ _ _ _ _ _ hc, kept_eq (c :: rest)]
        split_ifs with h1 h2
        · rw [ih _ out htl hdd2]
          simp [h1]
        · exact absurd h2 (hdd _ hmem)
        · rw [ih _ _ htl hdd2]
          simp [List.filter_cons, h1, hne]

theorem backtrack_skip (a : Str) (x : Char) (e : Str) (dotdot : Nat) (hdd : dotdot ≤ a.length)
    (he : ∀ c ∈ e, c ≠ '/') :
    ∀ j, j ≤ e.length →
      backtrack (a ++ x :: e) dotdot (a.length + j) = backtrack (a ++ x :: e) dotdot a.length := by
  intro j
  induction j with
  | zero => intro _; rfl
  | succ j ih =>
    intro hj
    have hj2 : j < e.length := hj
    have hget : (a ++ x :: e).getD (a.length + j + 1) Separator = e[j] := by
      rw [List.getD_append_right _ _ _ _ (by omega)]
      have : a.length + j + 1 - a.length = j + 1 := by omega
      rw [this, List.getD_cons_succ, List.getD_eq_getElem _ _ hj2]
    have hns : isPathSeparator e[j] = false := by
      have := he e[j] (List.getElem_mem _)
      simpa [isPathSeparator, Separator] using this
    have : backtrack (a ++ x :: e) dotdot (a.length + (j + 1))
        = backtrack (a ++ x :: e) dotdot (a.length + j) := by
      rw [show a.length + (j + 1) = (a.length + j) + 1 from rfl]
      conv_lhs => unfold backtrack
      rw [hget, if_pos ⟨by omega, hns⟩]
    rw [this, ih (by omega)]

theorem RootedOut.length_pos {out : Str} (h : RootedOut out) : 1 ≤ out.length := by
  cases h <;> simp
  omega

theorem RootedOut.eq_root_or {out : Str} (h : RootedOut out) : out = ['/'] ∨ 2 ≤ out.length := by
  cases h with
  | root => exact Or.inl rfl
  | first e hne _ _ =>
    right
    cases e with
    | nil => exact absurd rfl hne
    | cons y ys => simp
  | more o e ho hne _ _ =>
    right
    have := ho.length_pos
    simp
    omega

theorem RootedOut.backtrack {out : Str} (h : RootedOut out) (hl : 1 < out.length) :
    RootedOut (out.take (backtrack out 1 (out.length - 1))) := by
  cases h with
  | root => simp at hl
  | first e hne hsep _ =>
    cases e with
    | nil => exact absurd rfl hne
    | cons y ys =>
      have h1 := backtrack_skip ['/'] y ys 1 (by simp) (fun c hc => hsep c (by simp [hc]))
        ys.length (le_refl _)
      have h2 : ('/' :: y :: ys).length - 1 = ['/'].length + ys.length := by
        simp; omega
      have h3 : ('/' :: y :: ys) = ['/'] ++ y :: ys := rfl
      rw [h2, h3, h1]
      simp [filepath.backtrack]
      exact RootedOut.root
  | more o e ho hne hsep _ =>
    have h1 := backtrack_skip o '/' e 1 ho.length_pos hsep e.length (le_refl _)
    have h2 : (o ++ '/' :: e).length - 1 = o.length + e.length := by
      simp
    rw [h2, h1]
    have h3 : filepath.backtrack (o ++ '/' :: e) 1 o.length = o.length := by
      have hpos := ho.length_pos
      obtain ⟨n, hn⟩ : ∃ n, o.length = n + 1 := ⟨o.length - 1, by omega⟩
      rw [hn]
      unfold filepath.backtrack
      rw [← hn]
      have : (o ++ '/' :: e).getD o.length Separator = '/' := by
        rw [List.getD_append_right _ _ _ _ (le_refl _)]
        simp
      rw [this]
      simp [isPathSeparator, Separator]
    rw [h3]
    simpa using ho

theorem RootedOut.push {out e : Str} (h : RootedOut out) (hne : e ≠ [])
    (hsep : ∀ c ∈ e, c ≠ '/') (hdd : e ≠ ['.', '.']) : RootedOut (push true out e) := by
  rcases h.eq_root_or with h1 | h1
  · subst h1
    simpa [filepath.push] using RootedOut.first e hne hsep hdd
  · have : out.length ≠ 1 := by omega
    simpa [filepath.push, this, Separator] using RootedOut.more out e h hne hsep hdd

theorem cleanLoop_rootedOut :
    ∀ (fuel : Nat) (s out : Str), RootedOut out → RootedOut (cleanLoop true fuel s out 1) := by
  intro fuel
  induction fuel with
  | zero => intro s out h; simpa [cleanLoop] using h
  | succ fuel ih =>
    intro s out h
    cases s with
    | nil => simpa [cleanLoop] using h
    | cons c rest =>
      by_cases hc : c = '/'
      · subst hc
        have h1 : cleanLoop true (fuel + 1) ('/' :: rest) out 1
            = cleanLoop true fuel rest out 1 := by
          simp [cleanLoop, isPathSeparator, Separator]
        rw [h1]
        exact ih _ _ h
      · have hs : isPathSeparator c = false := by simpa [isPathSeparator, Separator] using hc
        rw [cleanLoop_step _ _ _ _ _ _ hc]
        split_ifs with h1 h2
        · exact ih _ _ h
        · by_cases hl : 1 < out.length
          · simp only [dotdotStep, gt_iff_lt, hl, if_true]
            exact ih _ _ (h.backtrack hl)
          · simp only [dotdotStep, gt_iff_lt, hl, if_false]
            simpa using ih _ _ h
        · apply ih
          apply h.push
          · simp [List.takeWhile_cons, hs]
          · intro x hx
            have := List.mem_takeWhile_imp hx
            simpa [isPathSeparator, Separator] using this
          · exact h2


theorem RootedOut.noDotDotElem {out : Str} (h : RootedOut out) : NoDotDotElem out := by
  induction h with
  | root =>
    intro e he
    simp [elems] at he
    subst he
    simp
  | first e _ hsep hdd =>
    intro x hx
    rw [elems_cons_sep, elems_nosep e hsep] at hx
    simp at hx
    rcases hx with rfl | rfl
    · simp
    · exact hdd
  | more o e _ _ hsep hdd ih =>
    intro x hx
    rw [elems_append_sep, elems_nosep e hsep] at hx
    simp at hx
    rcases hx with hx | rfl
    · exact ih x hx
    · exact hdd

theorem noDotDotElem_push_false (out e : Str) (ho : NoDotDotElem out)
    (hsep : ∀ c ∈ e, c ≠ '/') (hdd : e ≠ ['.', '.']) : NoDotDotElem (push false out e) := by
  intro x hx
  by_cases h0 : out = []
  · subst h0
    simp [push, elems_nosep e hsep] at hx
    subst hx
    exact hdd
  · have hp : push false out e = out ++ '/' :: e := by simp [push, h0, Separator]
    rw [hp, elems_append_sep, elems_nosep e hsep] at hx
    simp at hx
    rcases hx with hx | rfl
    · exact ho x hx
    · exact hdd

theorem noDotDotElem_foldl_push_false (L : List Str) :
    ∀ out : Str, NoDotDotElem out → (∀ e ∈ L, (∀ c ∈ e, c ≠ '/') ∧ e ≠ ['.', '.']) →
      NoDotDotElem (L.foldl (push false) out) := by
  induction L with
  | nil => intro out h _; simpa using h
  | cons e L ih =>
    intro out h hL
    simp only [List.foldl_cons]
    apply ih
    · exact noDotDotElem_push_false out e h (hL e (by simp)).1 (hL e (by simp)).2
    · intro x hx
      exact hL x (by simp [hx])

theorem kept_subset (s : Str) : ∀ e ∈ kept s, e ∈ elems s := by
  intro e he
  exact (List.mem_filter.mp he).1

theorem Clean_noDotDotElem (s : Str) (h : NoDotDotElem s) : NoDotDotElem (Clean s) := by
  cases s with
  | nil => intro e he; simp [Clean, elems] at he; subst he; simp
  | cons c rest =>
    by_cases hc : isPathSeparator c = true
    · have hr := cleanLoop_rootedOut (c :: rest).length rest ['/'] RootedOut.root
      have hl := hr.length_pos
      have : Clean (c :: rest) = cleanLoop true (c :: rest).length rest ['/'] 1 := by
        simp only [Clean, hc, if_true, Separator]
        rw [if_neg (by omega)]
      rw [this]
      exact hr.noDotDotElem
    · have hout := cleanLoop_noDotDot false 0 (c :: rest).length (c :: rest) [] (le_refl _) h
      have hnd : NoDotDotElem (cleanLoop false (c :: rest).length (c :: rest) [] 0) := by
        rw [hout]
        apply noDotDotElem_foldl_push_false
        · intro e he; simp [elems] at he; subst he; simp
        · intro e he
          exact ⟨elems_no_sep _ e (kept_subset _ e he), h e (kept_subset _ e he)⟩
      have hcl : Clean (c :: rest)
          = if (cleanLoop false (c :: rest).length (c :: rest) [] 0).length = 0 then ['.']
            else cleanLoop false (c :: rest).length (c :: rest) [] 0 := by
        simp [Clean, hc]
      rw [hcl]
      split_ifs
      · intro e he; simp [elems] at he; subst he; simp
      · exact hnd

end filepath

namespace strings

theorem Contains_iff_infix (s sub : Str) : Contains s sub = true ↔ sub <:+: s := by
  induction s with
  | nil => simp [Contains, HasPrefix, List.isPrefixOf_iff_prefix]
  | cons c s ih =>
    simp only [Contains, Bool.or_eq_true, ih, HasPrefix, List.isPrefixOf_iff_prefix]
    exact (List.infix_cons_iff).symm

end strings

namespace filepath

theorem elems_infix (s : Str) : ∀ e ∈ elems s, e <:+: s := by
  induction s with
  | nil => intro e he; simp [elems] at he; subst he; exact List.infix_refl _
  | cons c s ih =>
    intro e he
    by_cases hc : c = '/'
    · simp only [elems, hc, if_true, List.mem_cons] at he
      rcases he with rfl | he
      · exact List.nil_infix
      · exact List.infix_cons (ih e he)
    · rw [elems_eq_takeWhile (c :: s)] at he
      simp only [List.mem_cons] at he
      rcases he with rfl | he
      · exact (List.takeWhile_prefix _).isInfix
      · have hs : isPathSeparator c = false := by simpa [isPathSeparator, Separator] using hc
        have h1 : (c :: s).dropWhile (fun x => !isPathSeparator x)
            = s.dropWhile (fun x => !isPathSeparator x) := by
          simp [List.dropWhile_cons, hs]
        rw [h1] at he
        have h2 : e ∈ elems s := by
          rw [elems_eq_takeWhile s]
          exact List.mem_cons_of_mem _ he
        exact List.infix_cons (ih e h2)

theorem noDotDotElem_of_not_Contains (s : Str)
    (h : strings.Contains s "..".toList = false) : NoDotDotElem s := by
  intro e he hdd
  have h1 := elems_infix s e he
  rw [hdd] at h1
  have h2 : strings.Contains s "..".toList = true := (strings.Contains_iff_infix _ _).mpr h1
  rw [h] at h2
  exact Bool.noConfusion h2

theorem noDotDotElem_swap_suffix (t x y : Str) (hx : ∀ c ∈ x, c ≠ '/') (hy : ∀ c ∈ y, c ≠ '/')
    (hlen : 2 < y.length) (h : NoDotDotElem (t ++ x)) : NoDotDotElem (t ++ y) := by
  obtain ⟨D, l, _, h2⟩ := elems_append_nosep t
  intro e he
  rw [h2 y hy] at he
  simp only [List.mem_append, List.mem_singleton] at he
  rcases he with he | rfl
  · apply h
    rw [h2 x hx]
    simp [he]
  · intro hc
    have := congrArg List.length hc
    simp at this
    omega

end filepath

theorem addJsonExt_noDotDotElem (p : Str) (h : filepath.NoDotDotElem p) :
    filepath.NoDotDotElem (addJsonExt p) := by
  unfold addJsonExt
  split_ifs
  · have h0 : filepath.NoDotDotElem (p ++ []) := by simpa using h
    exact filepath.noDotDotElem_swap_suffix p [] ".json".toList (by simp) (by decide)
      (by decide) h0
  · exact h

theorem jsonSibling_noDotDotElem (p : Str) (h : filepath.NoDotDotElem p) :
    filepath.NoDotDotElem (jsonSibling p) := by
  unfold jsonSibling
  split_ifs
  · unfold strings.TrimSuffix
    split_ifs with h2
    · have h3 : ".mdx".toList <:+ p := by
        simpa [strings.HasSuffix, List.isSuffixOf_iff_suffix] using h2
      obtain ⟨t, ht⟩ := h3
      have h4 : p.take (p.length - ".mdx".toList.length) = t := by
        rw [← ht]
        simp
      rw [h4]
      rw [← ht] at h
      exact filepath.noDotDotElem_swap_suffix t ".mdx".toList ".json".toList (by decide)
        (by decide) (by decide) h
    · have h0 : filepath.NoDotDotElem (p ++ []) := by simpa using h
      exact filepath.noDotDotElem_swap_suffix p [] ".json".toList (by simp) (by decide)
        (by decide) h0
  · exact h

namespace filepath

theorem kept_append_sep (a b : Str) : kept (a ++ '/' :: b) = kept a ++ kept b := by
  simp [kept, elems_append_sep]

theorem foldl_push_isPrefix (rooted : Bool) (L : List Str) :
    ∀ out : Str, out <+: L.foldl (push rooted) out := by
  induction L with
  | nil => intro out; exact List.prefix_refl _
  | cons e L ih =>
    intro out
    simp only [List.foldl_cons]
    refine List.IsPrefix.trans ?_ (ih _)
    unfold push
    split_ifs
    · rw [List.append_assoc]
      exact List.prefix_append _ _
    · exact List.prefix_append _ _

/-- On a clean absolute root, joining a path none of whose elements is `..`
appends elements to the root. -/
theorem Join_eq_foldl (rt p : Str) (hclean : Clean ('/' :: rt) = '/' :: rt)
    (hp : NoDotDotElem p) :
    Join ('/' :: rt) p = (kept p).foldl (push true) ('/' :: rt) := by
  have hs : isPathSeparator '/' = true := rfl
  -- the root is what the loop writes for it
  have hr := cleanLoop_rootedOut ('/' :: rt).length rt ['/'] RootedOut.root
  have hR : cleanLoop true ('/' :: rt).length rt ['/'] 1 = '/' :: rt := by
    have h1 : Clean ('/' :: rt) = cleanLoop true ('/' :: rt).length rt ['/'] 1 := by
      have hl := hr.length_pos
      simp only [Clean, hs, if_true, Separator]
      rw [if_neg (by omega)]
    rw [← h1, hclean]
  have hnd : NoDotDotElem rt := by
    have h2 := hr.noDotDotElem
    rw [hR] at h2
    intro e he
    exact h2 e (by rw [elems_cons_sep]; exact List.mem_cons_of_mem _ he)
  have hroot : (kept rt).foldl (push true) ['/'] = '/' :: rt := by
    rw [← cleanLoop_noDotDot true 1 ('/' :: rt).length rt ['/'] (by simp) hnd, hR]
  -- the joined path
  have hnd2 : NoDotDotElem (rt ++ '/' :: p) := by
    intro e he
    rw [elems_append_sep] at he
    rcases List.mem_append.mp he with h | h
    · exact hnd e h
    · exact hp e h
  have hout : cleanLoop true (('/' :: rt) ++ '/' :: p).length (rt ++ '/' :: p) ['/'] 1
      = (kept p).foldl (push true) ('/' :: rt) := by
    rw [cleanLoop_noDotDot true 1 _ _ ['/'] (by simp) hnd2, kept_append_sep, List.foldl_append,
      hroot]
  have hpre := foldl_push_isPrefix true (kept p) ('/' :: rt)
  have hlen : ((kept p).foldl (push true) ('/' :: rt)).length ≠ 0 := by
    have := hpre.length_le
    simp at this
    omega
  have hJ : Join ('/' :: rt) p
      = Clean ('/' :: (rt ++ '/' :: p)) := by
    simp [Join, Separator]
  rw [hJ]
  have hC : Clean ('/' :: (rt ++ '/' :: p))
      = cleanLoop true (('/' :: rt) ++ '/' :: p).length (rt ++ '/' :: p) ['/'] 1 := by
    simp only [Clean, hs, if_true, Separator]
    rw [if_neg]
    · rfl
    · have h3 : ('/' :: (rt ++ '/' :: p)) = ('/' :: rt) ++ '/' :: p := rfl
      rw [h3, hout]
      exact hlen
  rw [hC, hout]

theorem Join_beneath (root p : Str) (habs : IsAbs root = true) (hclean : Clean root = root)
    (hp : NoDotDotElem p) :
    Join root p = root ∨ (root ++ [Separator]) <+: Join root p
      ∨ (root = [Separator] ∧ root <+: Join root p) := by
  obtain ⟨rt, rfl⟩ : ∃ rt, root = '/' :: rt := by
    cases root with
    | nil => simp [IsAbs, strings.HasPrefix] at habs
    | cons c rt =>
      have : '/' = c := by simpa [IsAbs, strings.HasPrefix, List.isPrefixOf] using habs
      exact ⟨rt, by rw [this]⟩
  rw [Join_eq_foldl rt p hclean hp]
  cases hk : kept p with
  | nil => exact Or.inl rfl
  | cons e L =>
    right
    simp only [List.foldl_cons]
    have hpre := foldl_push_isPrefix true L (push true ('/' :: rt) e)
    by_cases h1 : rt = []
    · subst h1
      right
      refine ⟨rfl, List.IsPrefix.trans ?_ hpre⟩
      simp [push]
    · left
      refine List.IsPrefix.trans ?_ hpre
      have : ('/' :: rt).length ≠ 1 := by
        simpa using h1
      simp only [push, this, ne_eq, not_false_eq_true, and_self, true_or, if_true]
      exact List.prefix_append (('/' :: rt) ++ [Separator]) e

end filepath

/-- C1 (amended): for every clean absolute documents root and every
client-supplied path without `..` as a substring, the three paths the
handlers resolve (document: cleaned id with `.json` added; upload: cleaned
path; rename: cleaned path turned into its `.json` sibling), joined to the
root, are the root itself, or start with the root and a separator, or, when
the root is `/` (which already ends in the separator), start with the
root.  Absolute inputs such as `/etc/passwd` are included; the input need
not be non-empty. -/
theorem resolved_paths_beneath_root (root input : Str)
    (habs : filepath.IsAbs root = true) (hclean : filepath.Clean root = root)
    (hdd : strings.Contains input "..".toList = false) :
    BeneathRoot root (filepath.Join root (addJsonExt (filepath.Clean input)))
    ∧ BeneathRoot root (filepath.Join root (filepath.Clean input))
    ∧ BeneathRoot root (filepath.Join root (jsonSibling (filepath.Clean input))) := by
  have h1 := filepath.Clean_noDotDotElem input (filepath.noDotDotElem_of_not_Contains input hdd)
  exact ⟨filepath.Join_beneath root _ habs hclean (addJsonExt_noDotDotElem _ h1),
    filepath.Join_beneath root _ habs hclean h1,
    filepath.Join_beneath root _ habs hclean (jsonSibling_noDotDotElem _ h1)⟩

/-- C1 witness: the root `/srv/docs` and the absolute input `/etc/passwd`
resolve to `/srv/docs/etc/passwd.json`. -/
theorem resolved_paths_beneath_root_witness :
    filepath.IsAbs "/srv/docs".toList = true
    ∧ filepath.Clean "/srv/docs".toList = "/srv/docs".toList
    ∧ strings.Contains "/etc/passwd".toList "..".toList = false
    ∧ BeneathRoot "/srv/docs".toList
        (filepath.Join "/srv/docs".toList (addJsonExt (filepath.Clean "/etc/passwd".toList)))
    ∧ filepath.Join "/srv/docs".toList (addJsonExt (filepath.Clean "/etc/passwd".toList))
        = "/srv/docs/etc/passwd.json".toList :=
  ⟨by decide, by decide, by decide,
    (resolved_paths_beneath_root "/srv/docs".toList "/etc/passwd".toList (by decide) (by decide)
      (by decide)).1, by decide⟩

/-- C1 as stated fails for the root `/`: the document id `a` resolves to
`/a.json`, which is neither `/` nor begins with `//`. -/
theorem beneath_fails_at_root_slash :
    filepath.IsAbs "/".toList = true
    ∧ filepath.Clean "/".toList = "/".toList
    ∧ "a".toList ≠ []
    ∧ strings.Contains "a".toList "..".toList = false
    ∧ filepath.Join "/".toList (addJsonExt (filepath.Clean "a".toList)) = "/a.json".toList
    ∧ ¬ Beneath "/".toList (filepath.Join "/".toList (addJsonExt (filepath.Clean "a".toList))) := by
  refine ⟨by decide, by decide, by decide, by decide, by decide, ?_⟩
  unfold Beneath
  decide

/-! ## The handlers -/

section HandlerFacts

variable {Value : Type}

theorem Error_status (w : ResponseWriter) (error : Str) (code : Nat) (hw : w.status = 0)
    (hc : code ≠ 0) : (Error w error code).status = code := by
  simp [Error, ResponseWriter.Write, ResponseWriter.WriteHeader, ResponseWriter.Set, hw, hc]

theorem jsonResponse_status (lib : Stdlib Value) (w : ResponseWriter) (code : Nat)
    (data : List (Str × JsonData)) (hw : w.status = 0) (hc : code ≠ 0) :
    (jsonResponse lib w code data).status = code := by
  simp [jsonResponse, ResponseWriter.Write, ResponseWriter.WriteHeader, ResponseWriter.Set, hw, hc]

theorem jsonResponse_body (lib : Stdlib Value) (w : ResponseWriter) (code : Nat)
    (data : List (Str × JsonData)) (hw : w.body = []) :
    (jsonResponse lib w code data).body = lib.Encode data := by
  simp only [jsonResponse, ResponseWriter.Write, ResponseWriter.WriteHeader, ResponseWriter.Set]
  split_ifs <;> simp [hw]

theorem withCORS_new (config : Config) :
    withCORS config ResponseWriter.new =
      ⟨[("Access-Control-Allow-Origin".toList, config.AllowOrigin),
        ("Access-Control-Allow-Methods".toList, "GET, POST, PUT, DELETE, OPTIONS".toList),
        ("Access-Control-Allow-Headers".toList, "Content-Type, Authorization".toList)],
       0, []⟩ := rfl

theorem corsMiddleware_options (config : Config) (next : HandlerFunc) (w : ResponseWriter)
    (r : Request) (h : r.Method = "OPTIONS".toList) :
    corsMiddleware config next w r = .ret ((withCORS config w).WriteHeader StatusOK) := by
  unfold corsMiddleware
  simp only [if_pos h]
  rfl

theorem corsMiddleware_other (config : Config) (next : HandlerFunc) (w : ResponseWriter)
    (r : Request) (h : r.Method ≠ "OPTIONS".toList) :
    corsMiddleware config next w r = next (withCORS config w) r := by
  unfold corsMiddleware
  simp only [if_neg h]
  rfl

theorem TrimPrefix_append (pre s : Str) : strings.TrimPrefix (pre ++ s) pre = s := by
  simp [strings.TrimPrefix, strings.HasPrefix]

theorem serve_docsList (lib : Stdlib Value) (config : Config) (r : Request) :
    serve lib config "/api/docs/list".toList r
      = corsMiddleware config (getDocListHandler config) ResponseWriter.new r := rfl

theorem serve_docs (lib : Stdlib Value) (config : Config) (r : Request) :
    serve lib config "/api/docs/".toList r
      = corsMiddleware config (docHandler lib config) ResponseWriter.new r := rfl

theorem serve_config (lib : Stdlib Value) (config : Config) (r : Request) :
    serve lib config "/api/config".toList r
      = corsMiddleware config (configHandler lib config) ResponseWriter.new r := rfl

theorem serve_upload (lib : Stdlib Value) (config : Config) (r : Request) :
    serve lib config "/api/files/upload".toList r
      = corsMiddleware config (uploadFileHandler lib config) ResponseWriter.new r := rfl

theorem serve_rename (lib : Stdlib Value) (config : Config) (r : Request) :
    serve lib config "/api/files/rename".toList r
      = corsMiddleware config (renameFileHandler lib config) ResponseWriter.new r := rfl

theorem serve_health (lib : Stdlib Value) (config : Config) (r : Request) :
    serve lib config "/api/health".toList r
      = corsMiddleware config (healthHandler lib config) ResponseWriter.new r := rfl

/-- Every handler `main` registers is wrapped in `corsMiddleware`. -/
theorem routes_wrapped (lib : Stdlib Value) (config : Config) (pattern : Str) (h : HandlerFunc)
    (hr : (routes lib config).lookup pattern = some h) :
    ∃ next, h = corsMiddleware config next := by
  simp only [routes, List.lookup] at hr
  repeat' split at hr
  all_goals first
    | exact ⟨_, (Option.some.inj hr).symm⟩
    | exact absurd hr (by simp)

theorem docHandler_eq (lib : Stdlib Value) (config : Config) (w : ResponseWriter) (r : Request)
    (id : Str) (hp : r.Path = "/api/docs/".toList ++ id) :
    docHandler lib config w r =
      if id = [] then .ret (Error w "Document ID is required".toList StatusBadRequest)
      else if strings.Contains id "..".toList = true then
        .ret (Error w "Invalid document ID".toList StatusBadRequest)
      else if r.Method = MethodGet then getDocumentHandler config w r (filepath.Clean id)
      else if r.Method = MethodPut then saveDocumentHandler lib config w r (filepath.Clean id)
      else .ret (Error w "Method not allowed".toList StatusMethodNotAllowed) := by
  simp only [docHandler, hp, TrimPrefix_append]

theorem post_ne_options : MethodPost ≠ "OPTIONS".toList := by decide

theorem put_ne_options : MethodPut ≠ "OPTIONS".toList := by decide

theorem put_ne_get : MethodPut ≠ MethodGet := by decide

theorem toOption_eq_some {ε α : Type} (x : Except ε α) (a : α) (h : x.toOption = some a) :
    x = .ok a := by
  cases x with
  | error e => simp [Except.toOption] at h
  | ok b =>
    simp only [Except.toOption, Option.some.injEq] at h
    rw [h]

theorem jsonSibling_hasSuffix (p : Str) :
    strings.HasSuffix (jsonSibling p) ".json".toList = true := by
  unfold jsonSibling
  split_ifs with h
  · simp [strings.HasSuffix]
  · simpa using h

end HandlerFacts

/-! ### The reference codec decodes what it encodes

The law `Stdlib.RedecodesAt` holds of the reference codec at every text:
the decoder produces values in canonical form (`Canon`), and the indented
text of a canonical value reads back as that value (`Reads`). -/

namespace Ref

section Sorting

variable {α : Type}

end Sorting

end Ref

theorem Ref.mkdirAll_spec (fuel : Nat) :
    ∀ (fs : Ref.FS) (p q : Str), (Ref.mkdirAll fuel fs p).2 q = fs q
      ∨ (fs q = none ∧ (Ref.mkdirAll fuel fs p).2 q = some Ref.Node.dir) := by
  induction fuel with
  | zero => intro fs p q; exact Or.inl rfl
  | succ fuel ih =>
    intro fs p q
    unfold Ref.mkdirAll
    cases hp : fs p with
    | some n =>
      cases n with
      | file d => exact Or.inl rfl
      | dir => exact Or.inl rfl
    | none =>
      simp only
      have h := ih fs (filepath.Dir p) q
      rcases hmk : Ref.mkdirAll fuel fs (filepath.Dir p) with ⟨e, fs1⟩
      rw [hmk] at h
      cases e with
      | some err => exact h
      | none =>
        simp only [Ref.FS.set]
        by_cases hq : q = p
        · subst hq
          right
          exact ⟨hp, by simp⟩
        · simpa [hq] using h

theorem Ref.os_mkdirAllKeepsFiles : Ref.os.MkdirAllKeepsFiles := by
  intro s dir p
  show (Ref.os.ReadFile (Ref.mkdirAll (dir.length + 1) s dir).2 p).toOption
    = (Ref.os.ReadFile s p).toOption
  rcases Ref.mkdirAll_spec (dir.length + 1) s dir p with h | ⟨h1, h2⟩
  · simp only [Ref.os, h]
  · simp only [Ref.os, h1, h2]
    rfl

theorem Ref.os_renameMovesFile : Ref.os.RenameMovesFile := by
  intro s s1 a b data hread hab hrn
  have ha : s a = some (Ref.Node.file data) := by
    simp only [Ref.os] at hread
    split at hread
    · rename_i d hd
      simp only [Except.ok.injEq] at hread
      rw [hd, hread]
    · simp at hread
    · simp at hread
  simp only [Ref.os, ha] at hrn
  split at hrn
  · simp at hrn
  · rename_i n hn hdir
    simp only [Option.some.injEq] at hn
    subst hn
    rw [if_neg hab] at hrn
    split_ifs at hrn with hb
    · simp at hrn
    · simp only [Prod.mk.injEq, true_and] at hrn
      subst hrn
      refine ⟨?_, ?_, ?_⟩
      · simp [Ref.os]
      · simp [Ref.os, hab]
      · intro p hpa hpb
        simp [Ref.os, hpa, hpb]
  · simp at hrn
  · simp at hrn

/-! ## Properties of the handlers -/

section Claims

variable {Value : Type} {σ : Type}

/-- C2: an id or path containing `..` is answered with 400 before any
filesystem access.  For a request the document route receives for
`/api/docs/{id}` with any method but `OPTIONS` and `..` in the id, and for a
`POST` the upload or the rename route receives whose body decodes with `..`
in `file_path`, `old_path` or `new_path`, the route's program is a finished
response with status 400: it makes no call into `os` at all, so on every
operating system the state after the request is the state before. -/
theorem dotdot_rejected_before_filesystem (lib : Stdlib Value) (config : Config) (pattern : Str)
    (r : Request)
    (h : (pattern = "/api/docs/".toList ∧ r.Method ≠ "OPTIONS".toList
          ∧ ∃ id, r.Path = "/api/docs/".toList ++ id ∧ strings.Contains id "..".toList = true)
      ∨ (pattern = "/api/files/upload".toList ∧ r.Method = MethodPost
          ∧ ∃ body req, r.Body = some body ∧ lib.unmarshalUploadFileRequest body = some req
            ∧ strings.Contains req.FilePath "..".toList = true)
      ∨ (pattern = "/api/files/rename".toList ∧ r.Method = MethodPost
          ∧ ∃ body req, r.Body = some body ∧ lib.unmarshalRenameFileRequest body = some req
            ∧ (strings.Contains req.OldPath "..".toList = true
              ∨ strings.Contains req.NewPath "..".toList = true))) :
    ∃ w, serve lib config pattern r = Prog.ret w ∧ w.status = 400
      ∧ ∀ (os : OS σ) (s : σ), (serve lib config pattern r).run os s = (w, s) := by
  suffices h1 : ∃ w, serve lib config pattern r = Prog.ret w ∧ w.status = 400 by
    obtain ⟨w, hw, hs⟩ := h1
    exact ⟨w, hw, hs, fun os s => by rw [hw]; rfl⟩
  rcases h with ⟨rfl, hm, id, hp, hdd⟩ | ⟨rfl, hm, body, req, hb, hreq, hdd⟩
    | ⟨rfl, hm, body, req, hb, hreq, hdd⟩
  · rw [serve_docs, corsMiddleware_other _ _ _ _ hm, docHandler_eq lib config _ r id hp]
    split_ifs
    · exact ⟨_, rfl, Error_status _ _ _ rfl (by decide)⟩
    · exact ⟨_, rfl, Error_status _ _ _ rfl (by decide)⟩
  · have hopt : r.Method ≠ "OPTIONS".toList := by rw [hm]; exact post_ne_options
    rw [serve_upload, corsMiddleware_other _ _ _ _ hopt]
    simp only [uploadFileHandler, hm, hb, hreq, ne_eq, not_true_eq_false, if_false, hdd, if_true]
    split_ifs <;> exact ⟨_, rfl, Error_status _ _ _ rfl (by decide)⟩
  · have hopt : r.Method ≠ "OPTIONS".toList := by rw [hm]; exact post_ne_options
    rw [serve_rename, corsMiddleware_other _ _ _ _ hopt]
    simp only [renameFileHandler, hm, hb, hreq, ne_eq, not_true_eq_false, if_false, hdd, if_true]
    split_ifs <;> exact ⟨_, rfl, Error_status _ _ _ rfl (by decide)⟩

/-- C2 witness: `GET /api/docs/a..b` on the reference configuration. -/
theorem dotdot_rejected_before_filesystem_witness :
    ∃ w, serve Ref.stdlib Ref.config "/api/docs/".toList
        ⟨MethodGet, "/api/docs/a..b".toList, none⟩ = Prog.ret w
      ∧ w.status = 400
      ∧ ∀ (os : OS Ref.FS) (s : Ref.FS),
        (serve Ref.stdlib Ref.config "/api/docs/".toList
          ⟨MethodGet, "/api/docs/a..b".toList, none⟩).run os s = (w, s) :=
  dotdot_rejected_before_filesystem Ref.stdlib Ref.config "/api/docs/".toList
    ⟨MethodGet, "/api/docs/a..b".toList, none⟩
    (Or.inl ⟨rfl, by decide, "a..b".toList, by decide, by decide⟩)

/-- C7: a save whose content is not parseable JSON is answered with 400 and
nothing is written.  For every `PUT` the document route receives for
`/api/docs/{id}` with a non-empty id without `..`, whose body cannot be
read, does not decode as a `SaveContentRequest`, or decodes to a content
string (the empty string when the field is missing) that is not JSON, the
route's program is a finished response with status 400: no directory is
created and no file written, and on every operating system the state after
the request is the state before. -/
theorem save_invalid_content_rejected (lib : Stdlib Value) (config : Config) (r : Request)
    (id : Str) (hm : r.Method = MethodPut) (hp : r.Path = "/api/docs/".toList ++ id)
    (hid : id ≠ []) (hdd : strings.Contains id "..".toList = false)
    (hbad : r.Body = none ∨ ∃ body, r.Body = some body
      ∧ (lib.unmarshalSaveContentRequest body = none
        ∨ ∃ req, lib.unmarshalSaveContentRequest body = some req
          ∧ lib.unmarshalValue req.Content = none)) :
    ∃ w, serve lib config "/api/docs/".toList r = Prog.ret w ∧ w.status = 400
      ∧ ∀ (os : OS σ) (s : σ), (serve lib config "/api/docs/".toList r).run os s = (w, s) := by
  have hopt : r.Method ≠ "OPTIONS".toList := by rw [hm]; exact put_ne_options
  have hget : r.Method ≠ MethodGet := by rw [hm]; exact put_ne_get
  suffices h1 : ∃ w, serve lib config "/api/docs/".toList r = Prog.ret w ∧ w.status = 400 by
    obtain ⟨w, hw, hs⟩ := h1
    exact ⟨w, hw, hs, fun os s => by rw [hw]; rfl⟩
  rw [serve_docs, corsMiddleware_other _ _ _ _ hopt, docHandler_eq lib config _ r id hp,
    if_neg hid, if_neg (by rw [hdd]; exact Bool.false_ne_true), if_neg hget, if_pos hm]
  rcases hbad with hb | ⟨body, hb, hreq | ⟨req, hreq, hv⟩⟩
  · simp only [saveDocumentHandler, hb]
    exact ⟨_, rfl, Error_status _ _ _ rfl (by decide)⟩
  · simp only [saveDocumentHandler, hb, hreq]
    exact ⟨_, rfl, Error_status _ _ _ rfl (by decide)⟩
  · simp only [saveDocumentHandler, hb, hreq, hv]
    exact ⟨_, rfl, Error_status _ _ _ rfl (by decide)⟩

/-- C7 witness: `PUT /api/docs/guide` with the content `not json`. -/
theorem save_invalid_content_rejected_witness :
    ∃ w, serve Ref.stdlib Ref.config "/api/docs/".toList
        ⟨MethodPut, "/api/docs/guide".toList, some "\x7b\"content\":\"not json\"\x7d".toList⟩
        = Prog.ret w
      ∧ w.status = 400
      ∧ ∀ (os : OS Ref.FS) (s : Ref.FS),
          (serve Ref.stdlib Ref.config "/api/docs/".toList
            ⟨MethodPut, "/api/docs/guide".toList,
              some "\x7b\"content\":\"not json\"\x7d".toList⟩).run os s = (w, s) :=
  save_invalid_content_rejected Ref.stdlib Ref.config
    ⟨MethodPut, "/api/docs/guide".toList, some "\x7b\"content\":\"not json\"\x7d".toList⟩
    "guide".toList rfl (by decide) (by decide) (by decide)
    (Or.inr ⟨_, rfl, Or.inr ⟨⟨"not json".toList⟩, by decide, rfl⟩⟩)

/-- C8: an upload whose `file_data` is not valid base64 is answered with 400
and nothing is written.  For every `POST` the upload route receives whose
body decodes with a non-empty `file_path` without `..` and a non-empty
`file_data` that `base64.StdEncoding.DecodeString` rejects, the route's
program is a finished response with status 400: the decoding is checked
before any directory is created or file written, and on every operating
system the state after the request is the state before. -/
theorem upload_invalid_base64_rejected (lib : Stdlib Value) (config : Config) (r : Request)
    (body : Str) (req : UploadFileRequest) (hm : r.Method = MethodPost)
    (hb : r.Body = some body)
    (hreq : lib.unmarshalUploadFileRequest body = some req) (hpath : req.FilePath ≠ [])
    (hdd : strings.Contains req.FilePath "..".toList = false) (hdata : req.FileData ≠ [])
    (hbad : lib.DecodeString req.FileData = none) :
    ∃ w, serve lib config "/api/files/upload".toList r = Prog.ret w ∧ w.status = 400
      ∧ ∀ (os : OS σ) (s : σ),
        (serve lib config "/api/files/upload".toList r).run os s = (w, s) := by
  have hopt : r.Method ≠ "OPTIONS".toList := by rw [hm]; exact post_ne_options
  suffices h1 : ∃ w, serve lib config "/api/files/upload".toList r = Prog.ret w
      ∧ w.status = 400 by
    obtain ⟨w, hw, hs⟩ := h1
    exact ⟨w, hw, hs, fun os s => by rw [hw]; rfl⟩
  rw [serve_upload, corsMiddleware_other _ _ _ _ hopt]
  simp only [uploadFileHandler, hm, hb, hreq, ne_eq, not_true_eq_false, if_false, hpath, hdata,
    hdd, Bool.false_eq_true, hbad]
  exact ⟨_, rfl, Error_status _ _ _ rfl (by decide)⟩

/-- C8 witness: an upload of `x.bin` with the data `%%%`. -/
theorem upload_invalid_base64_rejected_witness :
    ∃ w, serve Ref.stdlib Ref.config "/api/files/upload".toList
        ⟨MethodPost, "/api/files/upload".toList,
          some "\x7b\"file_path\":\"x.bin\",\"file_data\":\"%%%\"\x7d".toList⟩ = Prog.ret w
      ∧ w.status = 400
      ∧ ∀ (os : OS Ref.FS) (s : Ref.FS),
        (serve Ref.stdlib Ref.config "/api/files/upload".toList
          ⟨MethodPost, "/api/files/upload".toList,
            some "\x7b\"file_path\":\"x.bin\",\"file_data\":\"%%%\"\x7d".toList⟩).run os s
          = (w, s) :=
  upload_invalid_base64_rejected Ref.stdlib Ref.config
    ⟨MethodPost, "/api/files/upload".toList,
      some "\x7b\"file_path\":\"x.bin\",\"file_data\":\"%%%\"\x7d".toList⟩
    _ ⟨"x.bin".toList, "%%%".toList⟩ rfl rfl (by decide) (by decide) (by decide)
    (by decide) (by decide)

/-- C5: renaming onto a destination that exists is answered with 409 and
changes nothing.  For every `POST` the rename route receives whose body
decodes with non-empty paths without `..`, when `Stat` finds both the
normalized source and the normalized destination (which may be one and the
same path), the response status is 409 and, on every operating system, the
state after the request is the state before. -/
theorem rename_onto_existing_conflict (os : OS σ) (lib : Stdlib Value) (config : Config)
    (r : Request) (s : σ) (body : Str) (req : RenameFileRequest) (hm : r.Method = MethodPost)
    (hb : r.Body = some body)
    (hreq : lib.unmarshalRenameFileRequest body = some req)
    (hold : req.OldPath ≠ []) (hnew : req.NewPath ≠ [])
    (hdd1 : strings.Contains req.OldPath "..".toList = false)
    (hdd2 : strings.Contains req.NewPath "..".toList = false)
    (hsrc : os.Stat s (filepath.Join config.DocsPath (jsonSibling (filepath.Clean req.OldPath)))
      = none)
    (hdst : os.Stat s (filepath.Join config.DocsPath (jsonSibling (filepath.Clean req.NewPath)))
      = none) :
    ((serve lib config "/api/files/rename".toList r).run os s).1.status = 409
    ∧ ((serve lib config "/api/files/rename".toList r).run os s).2 = s := by
  have hopt : r.Method ≠ "OPTIONS".toList := by rw [hm]; exact post_ne_options
  rw [serve_rename, corsMiddleware_other _ _ _ _ hopt]
  simp only [renameFileHandler, hm, hb, hreq, ne_eq, not_true_eq_false, if_false, hold, hnew,
    hdd1, hdd2, Bool.false_eq_true, or_self, Prog.run, hsrc, hdst, if_true]
  exact ⟨Error_status _ _ _ rfl (by decide), trivial⟩

/-- C5 witness: `a` renamed to `a.mdx`; both normalize to `a.json`, which
exists. -/
theorem rename_onto_existing_conflict_witness :
    ((serve Ref.stdlib Ref.config "/api/files/rename".toList
        ⟨MethodPost, "/api/files/rename".toList,
          some "\x7b\"old_path\":\"a\",\"new_path\":\"a.mdx\"\x7d".toList⟩).run Ref.os
        Ref.fs0).1.status = 409
    ∧ ((serve Ref.stdlib Ref.config "/api/files/rename".toList
        ⟨MethodPost, "/api/files/rename".toList,
          some "\x7b\"old_path\":\"a\",\"new_path\":\"a.mdx\"\x7d".toList⟩).run Ref.os
        Ref.fs0).2 = Ref.fs0 :=
  rename_onto_existing_conflict Ref.os Ref.stdlib Ref.config
    ⟨MethodPost, "/api/files/rename".toList,
      some "\x7b\"old_path\":\"a\",\"new_path\":\"a.mdx\"\x7d".toList⟩
    Ref.fs0 _ ⟨"a".toList, "a.mdx".toList⟩ rfl rfl (by decide) (by decide) (by decide)
    (by decide) (by decide) (by decide) (by decide)

/-- C6 (amended): renaming a source that `os.Stat` reports as not existing
is answered with 404 and creates nothing.  For every `POST` the rename
route receives whose body decodes with non-empty paths without `..`, when
`Stat` fails on the normalized source with an error that `os.IsNotExist`
accepts, then whatever the destination is, the response status is 404
and, on every operating system, the state after the request is the state
before; the destination's parent directories are not created. -/
theorem rename_missing_source_not_found (os : OS σ) (lib : Stdlib Value) (config : Config)
    (r : Request) (s : σ) (body : Str) (req : RenameFileRequest) (hm : r.Method = MethodPost)
    (hb : r.Body = some body)
    (hreq : lib.unmarshalRenameFileRequest body = some req)
    (hold : req.OldPath ≠ []) (hnew : req.NewPath ≠ [])
    (hdd1 : strings.Contains req.OldPath "..".toList = false)
    (hdd2 : strings.Contains req.NewPath "..".toList = false)
    (hsrc : os.Stat s (filepath.Join config.DocsPath (jsonSibling (filepath.Clean req.OldPath)))
      = some OSError.notExist) :
    ((serve lib config "/api/files/rename".toList r).run os s).1.status = 404
    ∧ ((serve lib config "/api/files/rename".toList r).run os s).2 = s := by
  have hopt : r.Method ≠ "OPTIONS".toList := by rw [hm]; exact post_ne_options
  rw [serve_rename, corsMiddleware_other _ _ _ _ hopt]
  simp only [renameFileHandler, hm, hb, hreq, ne_eq, not_true_eq_false, if_false, hold, hnew,
    hdd1, hdd2, Bool.false_eq_true, or_self, Prog.run, hsrc, if_true]
  exact ⟨Error_status _ _ _ rfl (by decide), trivial⟩

/-- C6 witness: `zz` renamed to `sub/c`; `zz.json` does not exist and the
directory `sub` is not created. -/
theorem rename_missing_source_not_found_witness :
    (((serve Ref.stdlib Ref.config "/api/files/rename".toList
        ⟨MethodPost, "/api/files/rename".toList,
          some "\x7b\"old_path\":\"zz\",\"new_path\":\"sub/c\"\x7d".toList⟩).run Ref.os
        Ref.fs0).1.status = 404
    ∧ ((serve Ref.stdlib Ref.config "/api/files/rename".toList
        ⟨MethodPost, "/api/files/rename".toList,
          some "\x7b\"old_path\":\"zz\",\"new_path\":\"sub/c\"\x7d".toList⟩).run Ref.os
        Ref.fs0).2 = Ref.fs0)
    ∧ Ref.fs0 "/srv/docs/sub".toList = none :=
  ⟨rename_missing_source_not_found Ref.os Ref.stdlib Ref.config
    ⟨MethodPost, "/api/files/rename".toList,
      some "\x7b\"old_path\":\"zz\",\"new_path\":\"sub/c\"\x7d".toList⟩
    Ref.fs0 _ ⟨"zz".toList, "sub/c".toList⟩ rfl rfl (by decide) (by decide) (by decide)
    (by decide) (by decide) (by decide), by decide⟩

/-- C6 as stated fails for a source that lies beneath a regular file.  On a
filesystem that reports `ENOTDIR`, renaming `a.json/x` to `sub/c`: nothing
is at the normalized source `/srv/docs/a.json/x.json`, yet `Stat` reports an
error that is not `IsNotExist`, the handler goes on, `MkdirAll` creates the
destination's directory `/srv/docs/sub`, `Rename` fails, and the response
status is 500, not 404. -/
theorem rename_source_beneath_file_is_500 :
    filepath.Join Ref.config.DocsPath (jsonSibling (filepath.Clean "a.json/x".toList))
      = "/srv/docs/a.json/x.json".toList
    ∧ Ref.fs0 "/srv/docs/a.json/x.json".toList = none
    ∧ Ref.osNotDir.Stat Ref.fs0 "/srv/docs/a.json/x.json".toList = some OSError.other
    ∧ ((serve Ref.stdlib Ref.config "/api/files/rename".toList Ref.renameBeneathFile).run
        Ref.osNotDir Ref.fs0).1.status = 500
    ∧ ((serve Ref.stdlib Ref.config "/api/files/rename".toList Ref.renameBeneathFile).run
        Ref.osNotDir Ref.fs0).1.status ≠ 404
    ∧ Ref.fs0 "/srv/docs/sub".toList = none
    ∧ ((serve Ref.stdlib Ref.config "/api/files/rename".toList Ref.renameBeneathFile).run
        Ref.osNotDir Ref.fs0).2 "/srv/docs/sub".toList = some Ref.Node.dir :=
  ⟨by decide, by decide, by decide, by decide, by decide, by decide, by decide⟩

/-- The rename route answers 404 only when `Stat` reports that the source
does not exist: on any other result of that call, an error included, the
status is 409, 500 or 200. -/
theorem rename_404_only_if_source_notExist (os : OS σ) (lib : Stdlib Value) (config : Config)
    (r : Request) (s : σ) (body : Str) (req : RenameFileRequest) (hm : r.Method = MethodPost)
    (hb : r.Body = some body)
    (hreq : lib.unmarshalRenameFileRequest body = some req)
    (hold : req.OldPath ≠ []) (hnew : req.NewPath ≠ [])
    (hdd1 : strings.Contains req.OldPath "..".toList = false)
    (hdd2 : strings.Contains req.NewPath "..".toList = false)
    (hsrc : os.Stat s (filepath.Join config.DocsPath (jsonSibling (filepath.Clean req.OldPath)))
      ≠ some OSError.notExist) :
    ((serve lib config "/api/files/rename".toList r).run os s).1.status ≠ 404 := by
  have hopt : r.Method ≠ "OPTIONS".toList := by rw [hm]; exact post_ne_options
  rw [serve_rename, corsMiddleware_other _ _ _ _ hopt]
  simp only [renameFileHandler, hm, hb, hreq, ne_eq, not_true_eq_false, if_false, hold, hnew,
    hdd1, hdd2, Bool.false_eq_true, or_self, Prog.run, hsrc]
  cases hdst : os.Stat s
      (filepath.Join config.DocsPath (jsonSibling (filepath.Clean req.NewPath))) with
  | none =>
    simp only [if_true, Prog.run]
    rw [Error_status _ _ _ rfl (by decide)]
    decide
  | some e =>
    simp only [reduceCtorEq, if_false, Prog.run]
    rcases hmk : os.MkdirAll s (filepath.Dir
      (filepath.Join config.DocsPath (jsonSibling (filepath.Clean req.NewPath)))) with ⟨e1, s1⟩
    cases e1 with
    | some e2 =>
      simp only [Prog.run]
      rw [Error_status _ _ _ rfl (by decide)]
      decide
    | none =>
      simp only [Prog.run]
      rcases hrn : os.Rename s1
        (filepath.Join config.DocsPath (jsonSibling (filepath.Clean req.OldPath)))
        (filepath.Join config.DocsPath (jsonSibling (filepath.Clean req.NewPath))) with ⟨e3, s2⟩
      cases e3 with
      | some e4 =>
        simp only [Prog.run]
        rw [Error_status _ _ _ rfl (by decide)]
        decide
      | none =>
        simp only [Prog.run]
        rw [jsonResponse_status _ _ _ _ rfl (by decide)]
        decide

/-- C10: an `OPTIONS` request to any route is answered with 200, an empty
body and the CORS headers, regardless of its path.  For every configuration
and every request with method `OPTIONS`: the middleware answers without
calling the handler it wraps, whatever that handler is; and every route
`main` registers has as its program the finished response with status 200,
no body and exactly the three headers `Access-Control-Allow-Origin` (the
configured origin), `Access-Control-Allow-Methods` and
`Access-Control-Allow-Headers`, with no call into `os`. -/
theorem options_preflight (lib : Stdlib Value) (config : Config) (r : Request)
    (hm : r.Method = "OPTIONS".toList) :
    (∀ (next : HandlerFunc) (w : ResponseWriter),
        corsMiddleware config next w r = Prog.ret ((withCORS config w).WriteHeader StatusOK))
    ∧ (∀ pattern, ((routes lib config).lookup pattern).isSome = true →
        serve lib config pattern r = Prog.ret
          ⟨[("Access-Control-Allow-Origin".toList, config.AllowOrigin),
            ("Access-Control-Allow-Methods".toList, "GET, POST, PUT, DELETE, OPTIONS".toList),
            ("Access-Control-Allow-Headers".toList, "Content-Type, Authorization".toList)],
           200, []⟩) := by
  refine ⟨fun next w => corsMiddleware_options config next w r hm, fun pattern hsome => ?_⟩
  obtain ⟨h, hr⟩ := Option.isSome_iff_exists.mp hsome
  obtain ⟨next, rfl⟩ := routes_wrapped lib config pattern h hr
  simp only [serve, hr]
  rw [corsMiddleware_options config next _ r hm]
  rfl

/-- C10 witness: `OPTIONS /api/docs/any/thing` on the document route of the
reference configuration. -/
theorem options_preflight_witness :
    serve Ref.stdlib Ref.config "/api/docs/".toList
        ⟨"OPTIONS".toList, "/api/docs/any/thing".toList, none⟩
      = Prog.ret
        ⟨[("Access-Control-Allow-Origin".toList, "http://localhost:5173".toList),
          ("Access-Control-Allow-Methods".toList, "GET, POST, PUT, DELETE, OPTIONS".toList),
          ("Access-Control-Allow-Headers".toList, "Content-Type, Authorization".toList)],
         200, []⟩ :=
  (options_preflight Ref.stdlib Ref.config
    ⟨"OPTIONS".toList, "/api/docs/any/thing".toList, none⟩ rfl).2 "/api/docs/".toList rfl

/-- C9 (amended): a method the interface table does not list yields 405,
after the id checks on document paths.  For every request with a method
other than `OPTIONS`: the route `/api/docs/list` answers every method but
`GET`, the route `/api/config` every method but `GET` and `PUT`, the routes
`/api/files/upload` and `/api/files/rename` every method but `POST`, and the
document route, for `/api/docs/{id}` with a non-empty id without `..`, every
method but `GET` and `PUT` with 405; for `/api/docs/{id}` with an empty id
or an id containing `..` the document route answers 400 whatever the
method.  Each answer is given without a call into `os`.  Nothing is stated
for `/api/health`. -/
theorem unlisted_method_not_allowed (lib : Stdlib Value) (config : Config) (r : Request)
    (hopt : r.Method ≠ "OPTIONS".toList) :
    (r.Method ≠ MethodGet →
      ∃ w, serve lib config "/api/docs/list".toList r = Prog.ret w ∧ w.status = 405)
    ∧ (r.Method ≠ MethodGet → r.Method ≠ MethodPut →
      ∃ w, serve lib config "/api/config".toList r = Prog.ret w ∧ w.status = 405)
    ∧ (r.Method ≠ MethodPost →
      ∃ w, serve lib config "/api/files/upload".toList r = Prog.ret w ∧ w.status = 405)
    ∧ (r.Method ≠ MethodPost →
      ∃ w, serve lib config "/api/files/rename".toList r = Prog.ret w ∧ w.status = 405)
    ∧ (∀ id, r.Path = "/api/docs/".toList ++ id → id ≠ [] →
      strings.Contains id "..".toList = false → r.Method ≠ MethodGet → r.Method ≠ MethodPut →
      ∃ w, serve lib config "/api/docs/".toList r = Prog.ret w ∧ w.status = 405)
    ∧ (∀ id, r.Path = "/api/docs/".toList ++ id →
      id = [] ∨ strings.Contains id "..".toList = true →
      ∃ w, serve lib config "/api/docs/".toList r = Prog.ret w ∧ w.status = 400) := by
  refine ⟨fun hm => ?_, fun hm1 hm2 => ?_, fun hm => ?_, fun hm => ?_,
    fun id hp hid hdd hm1 hm2 => ?_, fun id hp hbad => ?_⟩
  · rw [serve_docsList, corsMiddleware_other _ _ _ _ hopt]
    simp only [getDocListHandler, ne_eq, hm, not_false_eq_true, if_true]
    exact ⟨_, rfl, Error_status _ _ _ rfl (by decide)⟩
  · rw [serve_config, corsMiddleware_other _ _ _ _ hopt]
    simp only [configHandler, hm1, hm2, if_false]
    exact ⟨_, rfl, Error_status _ _ _ rfl (by decide)⟩
  · rw [serve_upload, corsMiddleware_other _ _ _ _ hopt]
    simp only [uploadFileHandler, ne_eq, hm, not_false_eq_true, if_true]
    exact ⟨_, rfl, Error_status _ _ _ rfl (by decide)⟩
  · rw [serve_rename, corsMiddleware_other _ _ _ _ hopt]
    simp only [renameFileHandler, ne_eq, hm, not_false_eq_true, if_true]
    exact ⟨_, rfl, Error_status _ _ _ rfl (by decide)⟩
  · rw [serve_docs, corsMiddleware_other _ _ _ _ hopt, docHandler_eq lib config _ r id hp,
      if_neg hid, if_neg (by rw [hdd]; exact Bool.false_ne_true), if_neg hm1, if_neg hm2]
    exact ⟨_, rfl, Error_status _ _ _ rfl (by decide)⟩
  · rw [serve_docs, corsMiddleware_other _ _ _ _ hopt, docHandler_eq lib config _ r id hp]
    rcases hbad with h | h
    · rw [if_pos h]
      exact ⟨_, rfl, Error_status _ _ _ rfl (by decide)⟩
    · split_ifs
      · exact ⟨_, rfl, Error_status _ _ _ rfl (by decide)⟩
      · exact ⟨_, rfl, Error_status _ _ _ rfl (by decide)⟩

/-- C9 witness: `DELETE /api/docs/guide` is answered with 405 and
`GET /api/files/upload` too. -/
theorem unlisted_method_not_allowed_witness :
    (∃ w, serve Ref.stdlib Ref.config "/api/docs/".toList
        ⟨"DELETE".toList, "/api/docs/guide".toList, none⟩ = Prog.ret w ∧ w.status = 405)
    ∧ (∃ w, serve Ref.stdlib Ref.config "/api/files/upload".toList
        ⟨MethodGet, "/api/files/upload".toList, none⟩ = Prog.ret w ∧ w.status = 405) :=
  ⟨(unlisted_method_not_allowed Ref.stdlib Ref.config
      ⟨"DELETE".toList, "/api/docs/guide".toList, none⟩ (by decide)).2.2.2.2.1
      "guide".toList rfl (by decide) (by decide) (by decide) (by decide),
   (unlisted_method_not_allowed Ref.stdlib Ref.config
      ⟨MethodGet, "/api/files/upload".toList, none⟩ (by decide)).2.2.1 (by decide)⟩

/-- C9 as stated fails on `DELETE /api/docs/`: the route `/api/docs/` is
registered, the method is neither `OPTIONS` nor one the table lists for it,
and the answer is 400, not 405. -/
theorem delete_docs_without_id_is_400 :
    ((routes Ref.stdlib Ref.config).lookup "/api/docs/".toList).isSome = true
    ∧ "DELETE".toList ≠ "OPTIONS".toList
    ∧ "DELETE".toList ≠ MethodGet ∧ "DELETE".toList ≠ MethodPut
    ∧ ((serve Ref.stdlib Ref.config "/api/docs/".toList
        ⟨"DELETE".toList, "/api/docs/".toList, none⟩).run Ref.os Ref.fs0).1.status = 400
    ∧ ¬ ((serve Ref.stdlib Ref.config "/api/docs/".toList
        ⟨"DELETE".toList, "/api/docs/".toList, none⟩).run Ref.os Ref.fs0).1.status = 405 := by
  refine ⟨rfl, by decide, by decide, by decide, by decide, by decide⟩

/-- The health handler does not look at the method: every request the
route `/api/health` receives, but `OPTIONS`, is answered with 200. -/
theorem health_answers_every_method (os : OS σ) (lib : Stdlib Value) (config : Config)
    (r : Request) (s : σ) (hopt : r.Method ≠ "OPTIONS".toList) :
    ((serve lib config "/api/health".toList r).run os s).1.status = 200 := by
  rw [serve_health, corsMiddleware_other _ _ _ _ hopt]
  simp only [healthHandler, Prog.run]
  exact jsonResponse_status _ _ _ _ rfl (by decide)

/-- C4: a successful rename moves the `.json` sibling.  For every `POST` the
rename route receives whose body decodes with non-empty `old_path` and
`new_path` without `..`, write `norm p` for `jsonSibling (Clean p)`: the
cleaned path itself if it ends in `.json`, else the cleaned path without one
trailing `.mdx`, plus `.json`.  When `root/norm old_path` exists and is a
regular file, `root/norm new_path` does not exist, and creating the
destination's directory and the rename itself report no error, the response
has status 200 and reports `old_path = norm old_path` and
`new_path = norm new_path`, both ending in `.json`; the state after the
request is the one `os.Rename` returned, and on an operating system where
`MkdirAll` creates directories only and `Rename` moves a regular file, the
destination then holds the source's contents, the source no longer exists
and every other path reads as before. -/
theorem rename_moves_json_sibling (os : OS σ) (lib : Stdlib Value) (config : Config)
    (r : Request) (s s1 s2 : σ) (body : Str) (req : RenameFileRequest) (data : Str)
    (hmkLaw : os.MkdirAllKeepsFiles) (hrnLaw : os.RenameMovesFile)
    (hm : r.Method = MethodPost)
    (hb : r.Body = some body) (hreq : lib.unmarshalRenameFileRequest body = some req)
    (hold : req.OldPath ≠ []) (hnew : req.NewPath ≠ [])
    (hdd1 : strings.Contains req.OldPath "..".toList = false)
    (hdd2 : strings.Contains req.NewPath "..".toList = false)
    (hsrc : os.Stat s (filepath.Join config.DocsPath (jsonSibling (filepath.Clean req.OldPath)))
      = none)
    (hfile : os.ReadFile s
      (filepath.Join config.DocsPath (jsonSibling (filepath.Clean req.OldPath))) = .ok data)
    (hdst : os.Stat s (filepath.Join config.DocsPath (jsonSibling (filepath.Clean req.NewPath)))
      = some OSError.notExist)
    (hmk : os.MkdirAll s (filepath.Dir
      (filepath.Join config.DocsPath (jsonSibling (filepath.Clean req.NewPath)))) = (none, s1))
    (hrn : os.Rename s1
      (filepath.Join config.DocsPath (jsonSibling (filepath.Clean req.OldPath)))
      (filepath.Join config.DocsPath (jsonSibling (filepath.Clean req.NewPath))) = (none, s2)) :
    ((serve lib config "/api/files/rename".toList r).run os s).1.status = 200
    ∧ ((serve lib config "/api/files/rename".toList r).run os s).1.body = lib.Encode [
        ("success".toList, .bool true),
        ("message".toList, .str "File renamed successfully".toList),
        ("old_path".toList, .str (jsonSibling (filepath.Clean req.OldPath))),
        ("new_path".toList, .str (jsonSibling (filepath.Clean req.NewPath)))]
    ∧ strings.HasSuffix (jsonSibling (filepath.Clean req.OldPath)) ".json".toList = true
    ∧ strings.HasSuffix (jsonSibling (filepath.Clean req.NewPath)) ".json".toList = true
    ∧ ((serve lib config "/api/files/rename".toList r).run os s).2 = s2
    ∧ os.ReadFile ((serve lib config "/api/files/rename".toList r).run os s).2
        (filepath.Join config.DocsPath (jsonSibling (filepath.Clean req.NewPath))) = .ok data
    ∧ os.Stat ((serve lib config "/api/files/rename".toList r).run os s).2
        (filepath.Join config.DocsPath (jsonSibling (filepath.Clean req.OldPath)))
        = some OSError.notExist
    ∧ ∀ p, p ≠ filepath.Join config.DocsPath (jsonSibling (filepath.Clean req.OldPath)) →
        p ≠ filepath.Join config.DocsPath (jsonSibling (filepath.Clean req.NewPath)) →
        (os.ReadFile ((serve lib config "/api/files/rename".toList r).run os s).2 p).toOption
          = (os.ReadFile s p).toOption := by
  have hopt : r.Method ≠ "OPTIONS".toList := by rw [hm]; exact post_ne_options
  have hne : filepath.Join config.DocsPath (jsonSibling (filepath.Clean req.OldPath))
      ≠ filepath.Join config.DocsPath (jsonSibling (filepath.Clean req.NewPath)) := by
    intro hc
    rw [hc, hdst] at hsrc
    exact absurd hsrc (by simp)
  have hkeep := hmkLaw s (filepath.Dir
    (filepath.Join config.DocsPath (jsonSibling (filepath.Clean req.NewPath))))
  rw [hmk] at hkeep
  have hfile1 : os.ReadFile s1
      (filepath.Join config.DocsPath (jsonSibling (filepath.Clean req.OldPath))) = .ok data := by
    apply toOption_eq_some
    rw [hkeep, hfile]
    rfl
  obtain ⟨hnewRead, hgone, hothers⟩ := hrnLaw s1 s2 _ _ data hfile1 hne hrn
  have hrun : (serve lib config "/api/files/rename".toList r).run os s
      = (jsonResponse lib (withCORS config ResponseWriter.new) StatusOK [
          ("success".toList, .bool true),
          ("message".toList, .str "File renamed successfully".toList),
          ("old_path".toList, .str (jsonSibling (filepath.Clean req.OldPath))),
          ("new_path".toList, .str (jsonSibling (filepath.Clean req.NewPath)))], s2) := by
    rw [serve_rename, corsMiddleware_other _ _ _ _ hopt]
    simp only [renameFileHandler, hm, hb, hreq, ne_eq, not_true_eq_false, if_false, hold, hnew,
      hdd1, hdd2, Bool.false_eq_true, or_self, Prog.run, hsrc, hdst, hmk, hrn]
  rw [hrun]
  refine ⟨jsonResponse_status _ _ _ _ rfl (by decide), jsonResponse_body _ _ _ _ rfl,
    jsonSibling_hasSuffix _, jsonSibling_hasSuffix _, rfl, hnewRead, hgone, fun p h1 h2 => ?_⟩
  show (os.ReadFile s2 p).toOption = (os.ReadFile s p).toOption
  rw [hothers p h1 h2, hkeep]

/-- Past the two existence checks the rename route answers 500 as soon as
`MkdirAll` or `Rename` reports an error; after a failed `MkdirAll` the
rename is not attempted. -/
theorem rename_failure_is_500 (os : OS σ) (lib : Stdlib Value) (config : Config)
    (r : Request) (s : σ) (body : Str) (req : RenameFileRequest) (e : OSError)
    (hm : r.Method = MethodPost)
    (hb : r.Body = some body) (hreq : lib.unmarshalRenameFileRequest body = some req)
    (hold : req.OldPath ≠ []) (hnew : req.NewPath ≠ [])
    (hdd1 : strings.Contains req.OldPath "..".toList = false)
    (hdd2 : strings.Contains req.NewPath "..".toList = false)
    (hsrc : os.Stat s (filepath.Join config.DocsPath (jsonSibling (filepath.Clean req.OldPath)))
      = none)
    (hdst : os.Stat s (filepath.Join config.DocsPath (jsonSibling (filepath.Clean req.NewPath)))
      = some OSError.notExist) :
    ((os.MkdirAll s (filepath.Dir
        (filepath.Join config.DocsPath (jsonSibling (filepath.Clean req.NewPath))))).1 = some e →
      ((serve lib config "/api/files/rename".toList r).run os s).1.status = 500
      ∧ ((serve lib config "/api/files/rename".toList r).run os s).2
        = (os.MkdirAll s (filepath.Dir
            (filepath.Join config.DocsPath (jsonSibling (filepath.Clean req.NewPath))))).2)
    ∧ ((os.MkdirAll s (filepath.Dir
        (filepath.Join config.DocsPath (jsonSibling (filepath.Clean req.NewPath))))).1 = none →
      (os.Rename (os.MkdirAll s (filepath.Dir
          (filepath.Join config.DocsPath (jsonSibling (filepath.Clean req.NewPath))))).2
        (filepath.Join config.DocsPath (jsonSibling (filepath.Clean req.OldPath)))
        (filepath.Join config.DocsPath (jsonSibling (filepath.Clean req.NewPath)))).1 = some e →
      ((serve lib config "/api/files/rename".toList r).run os s).1.status = 500) := by
  have hopt : r.Method ≠ "OPTIONS".toList := by rw [hm]; exact post_ne_options
  rw [serve_rename, corsMiddleware_other _ _ _ _ hopt]
  simp only [renameFileHandler, hm, hb, hreq, ne_eq, not_true_eq_false, if_false, hold, hnew,
    hdd1, hdd2, Bool.false_eq_true, or_self, Prog.run, hsrc, hdst]
  refine ⟨fun h1 => ?_, fun h1 h2 => ?_⟩
  · simp only [h1, Prog.run]
    exact ⟨Error_status _ _ _ rfl (by decide), trivial⟩
  · simp only [h1, h2, Prog.run]
    exact Error_status _ _ _ rfl (by decide)

/-- C4 witness: the scenario of the specification.  With `a.json` present
and `b.json` absent, renaming `a.mdx` to `b` moves `a.json` to `b.json` and
reports `old_path` `a.json` and `new_path` `b.json`. -/
theorem rename_moves_json_sibling_witness :
    (((serve Ref.stdlib Ref.config "/api/files/rename".toList Ref.renameAB).run Ref.os
        Ref.fs0).1.status = 200
    ∧ ((serve Ref.stdlib Ref.config "/api/files/rename".toList Ref.renameAB).run Ref.os
        Ref.fs0).1.body
      = Ref.stdlib.Encode [
        ("success".toList, .bool true),
        ("message".toList, .str "File renamed successfully".toList),
        ("old_path".toList, .str (jsonSibling (filepath.Clean "a.mdx".toList))),
        ("new_path".toList, .str (jsonSibling (filepath.Clean "b".toList)))]
    ∧ strings.HasSuffix (jsonSibling (filepath.Clean "a.mdx".toList)) ".json".toList = true
    ∧ strings.HasSuffix (jsonSibling (filepath.Clean "b".toList)) ".json".toList = true
    ∧ ((serve Ref.stdlib Ref.config "/api/files/rename".toList Ref.renameAB).run Ref.os
        Ref.fs0).2
      = (Ref.os.Rename (Ref.os.MkdirAll Ref.fs0 "/srv/docs".toList).2
          "/srv/docs/a.json".toList "/srv/docs/b.json".toList).2
    ∧ Ref.os.ReadFile
        ((serve Ref.stdlib Ref.config "/api/files/rename".toList Ref.renameAB).run Ref.os
          Ref.fs0).2
        (filepath.Join Ref.config.DocsPath (jsonSibling (filepath.Clean "b".toList)))
      = .ok "\x7b\"title\": \"A\"\x7d".toList
    ∧ Ref.os.Stat
        ((serve Ref.stdlib Ref.config "/api/files/rename".toList Ref.renameAB).run Ref.os
          Ref.fs0).2
        (filepath.Join Ref.config.DocsPath (jsonSibling (filepath.Clean "a.mdx".toList)))
      = some OSError.notExist
    ∧ ∀ p, p ≠ filepath.Join Ref.config.DocsPath (jsonSibling (filepath.Clean "a.mdx".toList)) →
        p ≠ filepath.Join Ref.config.DocsPath (jsonSibling (filepath.Clean "b".toList)) →
        (Ref.os.ReadFile
            ((serve Ref.stdlib Ref.config "/api/files/rename".toList Ref.renameAB).run Ref.os
              Ref.fs0).2 p).toOption
          = (Ref.os.ReadFile Ref.fs0 p).toOption)
    ∧ jsonSibling (filepath.Clean "a.mdx".toList) = "a.json".toList
    ∧ jsonSibling (filepath.Clean "b".toList) = "b.json".toList
    ∧ ((serve Ref.stdlib Ref.config "/api/files/rename".toList Ref.renameAB).run Ref.os
        Ref.fs0).1.body
      = ("\x7b\"message\":\"File renamed successfully\",\"new_path\":\"b.json\","
          ++ "\"old_path\":\"a.json\",\"success\":true\x7d\n").toList :=
  ⟨rename_moves_json_sibling Ref.os Ref.stdlib Ref.config Ref.renameAB Ref.fs0
      (Ref.os.MkdirAll Ref.fs0 "/srv/docs".toList).2
      (Ref.os.Rename (Ref.os.MkdirAll Ref.fs0 "/srv/docs".toList).2
        "/srv/docs/a.json".toList "/srv/docs/b.json".toList).2
      _ ⟨"a.mdx".toList, "b".toList⟩ "\x7b\"title\": \"A\"\x7d".toList
      Ref.os_mkdirAllKeepsFiles Ref.os_renameMovesFile rfl rfl (by decide) (by decide)
      (by decide) (by decide) (by decide) (by decide) rfl (by decide) rfl rfl,
    by decide, by decide, by decide⟩

end Claims
end Backend
